import Mathlib

/-!
# AutoLedger AI – frontend application logic (`src/frontend/app.js`)

A shallow embedding of the browser-side view controller: the pure formatting
helpers, the amount-extraction regular expression, the `apiFetch` wrapper and
the action handlers built on it, followed by the theorems that settle the
specification's claims about them.

Conventions of the embedding.

* A JavaScript string is the list of its characters.  The patterns of the
  program only distinguish ASCII word characters, digits, `$`, `.` and `_`, so
  reading a string by code points rather than by UTF-16 code units changes no
  result.
* Numbers that arrive from the backend are JSON numbers.  A confidence score
  is taken as a rational (every finite double is one, and the comparisons with
  the constants 80 and 50 are exact); `JSON.parse` never yields `NaN`.
* Where the program converts between a decimal text and a number
  (`parseFloat`, `JSON.parse`, the conversion of a number to a string), the
  number is the IEEE 754 double the language prescribes, computed on integers.
* An `async` function is modelled by the trace of effects it performs, given
  the outcome of each request it awaits.
-/

namespace AutoLedger

/-! ## Confidence colours (`app.js` 329–339) -/

/-- `getConfidenceColor(score)`: text colour class of a confidence score. -/
def getConfidenceColor (score : ℚ) : String :=
  if score ≥ 80 then "text-emerald-400"
  else if score ≥ 50 then "text-amber-400"
  else "text-red-400"

/-- `getConfidenceBarColor(score)`: bar colour class of a confidence score. -/
def getConfidenceBarColor (score : ℚ) : String :=
  if score ≥ 80 then "bg-emerald-400"
  else if score ≥ 50 then "bg-amber-400"
  else "bg-red-400"

/-! ## Status badge (`app.js` 341–350) -/

/-- The own properties of the object literal `map` in `getStatusBadge`. -/
def statusBadgeMap : List (String × String) :=
  [ ("auto_posted", "badge-auto"),
    ("pending_review", "badge-review"),
    ("manual_required", "badge-manual"),
    ("approved", "badge-approved"),
    ("rejected", "badge-rejected") ]

/-- The property names every object literal inherits from `Object.prototype`
(ECMA-262 §20.1.3 and Annex B.2.2).  Each of them is bound to a function,
except `__proto__`, whose getter returns the prototype object itself; all of
these values are truthy. -/
def objectPrototypeKeys : List String :=
  [ "constructor", "hasOwnProperty", "isPrototypeOf", "propertyIsEnumerable",
    "toLocaleString", "toString", "valueOf", "__proto__",
    "__defineGetter__", "__defineSetter__", "__lookupGetter__", "__lookupSetter__" ]

/-- What the expression `map[status] || ''` can evaluate to: a string, or the
(truthy, non-string) member of `Object.prototype` found under that name. -/
inductive BadgeValue where
  | text (s : String)
  | inherited (key : String)
  deriving DecidableEq, Repr

/-- `getStatusBadge(status)`: `map[status] || ''`.  The lookup `map[status]`
first consults the own properties of the literal, then its prototype chain,
and is `undefined` (replaced by `''`) only when both miss.  An own value that
is the empty string would also be replaced by `''`. -/
def getStatusBadge (status : String) : BadgeValue :=
  match statusBadgeMap.lookup status with
  | some cls => if cls = "" then .text "" else .text cls
  | none => if objectPrototypeKeys.contains status then .inherited status else .text ""

/-! ## Status text (`app.js` 352–354) -/

/-- The class `\w` of a regular expression without the `u` and `i` flags:
`[A-Za-z0-9_]`. -/
def isWordChar (c : Char) : Bool := c.isAlphanum || c == '_'

/-- `.replace(/_/g, ' ')`: every underscore becomes a space. -/
def replaceUnderscores (s : List Char) : List Char :=
  s.map fun c => if c = '_' then ' ' else c

/-- `.replace(/\b\w/g, c => c.toUpperCase())`, scanning left to right.
`prevIsWord` tells whether the character just before the current position is a
word character (false at the start of the string).  `\b\w` matches the current
character exactly when it is a word character and its predecessor is not; the
match is one character long, so the scan resumes at the next character, whose
predecessor is the (unreplaced) current one. -/
def capitalizeWordStarts (prevIsWord : Bool) : List Char → List Char
  | [] => []
  | c :: cs =>
    (if isWordChar c && !prevIsWord then c.toUpper else c) :: capitalizeWordStarts (isWordChar c) cs

/-- `formatStatus(status)`; `none` stands for a `null` or `undefined` status,
which `status || ''` turns into the empty string. -/
def formatStatus (status : Option String) : String :=
  String.mk (capitalizeWordStarts false (replaceUnderscores (status.getD "").toList))

/-! ### The specification's wording of the status text -/

/-- Whether the character at index `i` is a letter or a digit. -/
def alnumAt (s : List Char) (i : Nat) : Bool :=
  match s[i]? with
  | some c => c.isAlphanum
  | none => false

/-- Whether index `i` holds the first character of a word, a word being a
maximal run of letters and digits (underscores separate words, as they become
spaces). -/
def startsWord (s : List Char) (i : Nat) : Bool :=
  alnumAt s i && (i == 0 || !alnumAt s (i - 1))

/-- The character the specification asks for at index `i`, where the status
holds `c`: a space for an underscore, the upper-case form for the first
character of a word, and `c` itself otherwise. -/
def statusTextChar (s : List Char) (i : Nat) (c : Char) : Char :=
  if c = '_' then ' ' else if startsWord s i then c.toUpper else c

/-! ## Numbers

The Number type of the language is IEEE 754 binary64.  A decimal text is
converted to the nearest double, ties to the even mantissa (engines round the
decimal exactly, also where it has more than the 20 significant digits up to
which ECMA-262 prescribes it), and a double is converted to the shortest
decimal text that reads back as the same double (ECMA-262 §6.1.6.1.20,
`Number::toString`). -/

/-- Number of halvings that bring `n` below 2: the position of its leading
binary digit. -/
def binaryLog : Nat → Nat → Nat
  | 0, _ => 0
  | fuel + 1, n => if n < 2 then 0 else binaryLog fuel (n / 2) + 1

/-- The integer `t` with `2 ^ t ≤ n / d < 2 ^ (t + 1)`, for positive `n` and
`d`. -/
def floorLog2Ratio (n d : Nat) : Int :=
  let t : Int := (binaryLog n n : Int) - (binaryLog d d : Int)
  if d * 2 ^ t.toNat ≤ n * 2 ^ (-t).toNat then t else t - 1

/-- The integer nearest to `a / b`, the even one of the two when `a / b` lies
half-way between them. -/
def roundHalfEven (a b : Nat) : Nat :=
  let q := a / b
  let r := a % b
  if 2 * r < b then q else if b < 2 * r then q + 1 else if q % 2 = 0 then q else q + 1

/-- The IEEE 754 binary64 number nearest to `n / d` (ties to even), as a
mantissa `m` and an exponent `e` with value `m * 2 ^ e`: `m` has 53 binary
digits, or fewer with `e = -1074`; zero is `(0, 0)`; `none` stands for a value
rounded beyond the largest double. -/
def toDouble (n d : Nat) : Option (Nat × Int) :=
  if n = 0 then some (0, 0)
  else
    let e : Int := max (floorLog2Ratio n d - 52) (-1074)
    let m := roundHalfEven (n * 2 ^ (-e).toNat) (d * 2 ^ e.toNat)
    if m = 0 then some (0, 0)
    else if m = 2 ^ 53 then (if 971 < e + 1 then none else some (2 ^ 52, e + 1))
    else if 971 < e then none
    else some (m, e)

/-- Number of decimal digits of `n`. -/
def decimalLength (n : Nat) : Nat := (Nat.toDigits 10 n).length

/-- The integer `n` with `10 ^ (n - 1) ≤ a / b < 10 ^ n`, for positive `a`
and `b`. -/
def decimalExponent (a b : Nat) : Int :=
  let t : Int := (decimalLength a : Int) - (decimalLength b : Int)
  if b * 10 ^ t.toNat ≤ a * 10 ^ (-t).toNat then t + 1 else t

/-- The decimal `s * 10 ^ scale` as a double. -/
def decimalToDouble (s : Nat) (scale : Int) : Option (Nat × Int) :=
  toDouble (s * 10 ^ scale.toNat) (10 ^ (-scale).toNat)

/-- The search of `Number::toString` for the digits of the double `x` of
mantissa `m` and exponent `e`, where `10 ^ (n - 1) ≤ x < 10 ^ n`: the least
number `k` of digits, tried from `k` on, for which some integer `s` gives
`s * 10 ^ (n - k)` a decimal that reads back as `x`; of two such `s` the one
nearer to `x`.  Returns `s` and `k`. -/
def shortestDigits (m : Nat) (e : Int) (n : Int) : Nat → Nat → Nat × Nat
  | 0, k => (m, k)
  | fuel + 1, k =>
    let scale : Int := n - (k : Int)
    let a := m * 2 ^ e.toNat * 10 ^ (-scale).toNat
    let b := 2 ^ (-e).toNat * 10 ^ scale.toNat
    let lo := a / b
    let r := a % b
    if r = 0 then (lo, k)
    else
      let okLo := decide (decimalToDouble lo scale = some (m, e))
      let okHi := decide (decimalToDouble (lo + 1) scale = some (m, e))
      if okLo && okHi then
        (if 2 * r < b then (lo, k) else if b < 2 * r then (lo + 1, k)
          else if lo % 2 = 0 then (lo, k) else (lo + 1, k))
      else if okLo then (lo, k)
      else if okHi then (lo + 1, k)
      else shortestDigits m e n fuel (k + 1)

/-- A run of zeros. -/
def zeros (n : Nat) : String := String.mk (List.replicate n '0')

/-- The text `Number::toString` builds from the decimal digits `digits` of
`s`, of which there are `k`, for the value `s * 10 ^ (n - k)`. -/
def formatDigits (digits : List Char) (k : Nat) (n : Int) : String :=
  if (k : Int) ≤ n ∧ n ≤ 21 then String.mk digits ++ zeros (n.toNat - k)
  else if 0 < n ∧ n ≤ 21 then
    String.mk (digits.take n.toNat) ++ "." ++ String.mk (digits.drop n.toNat)
  else if -6 < n ∧ n ≤ 0 then "0." ++ zeros (-n).toNat ++ String.mk digits
  else
    let exponent := (if 0 ≤ n - 1 then "e+" else "e-") ++ toString (n - 1).natAbs
    if k = 1 then String.mk digits ++ exponent
    else String.mk (digits.take 1) ++ "." ++ String.mk (digits.drop 1) ++ exponent

/-- `Number::toString` of the positive double of mantissa `m` and exponent
`e`. -/
def positiveNumberText (m : Nat) (e : Int) : String :=
  let n := decimalExponent (m * 2 ^ e.toNat) (2 ^ (-e).toNat)
  let (s, k) := shortestDigits m e n 17 1
  if s = 10 ^ k then formatDigits ['1'] 1 (n + 1)
  else formatDigits (Nat.toDigits 10 s) k n

/-- The text of the number a JSON literal of value `mantissa * 10 ^ exponent`
is parsed to: `Number::toString` of the nearest double. -/
def numberText (mantissa exponent : Int) : String :=
  match decimalToDouble mantissa.natAbs exponent with
  | none => if mantissa < 0 then "-Infinity" else "Infinity"
  | some (0, _) => "0"
  | some (m, e) => (if mantissa < 0 then "-" else "") ++ positiveNumberText m e

/-- A JavaScript number that is not negative: a finite value, or `Infinity`. -/
inductive JSNumber where
  | finite (value : ℚ)
  | infinity

/-- The Number value for the quotient `n / d`: the nearest double, and
`Infinity` beyond the largest one. -/
def numberValue (n d : Nat) : JSNumber :=
  match toDouble n d with
  | some (m, e) => .finite ((m : ℚ) * (2 : ℚ) ^ e)
  | none => .infinity

/-! ## Amount extraction in quick entry (`app.js` 249–256)

The pattern is `/\$?\b(\d+(?:\.\d{1,2})?)\b/`.  Each piece of the pattern is
embedded as a function from a position of the subject to the list of positions
at which that piece can end, in the order in which the backtracking matcher of
ECMA-262 tries them (greedy alternatives first); sequencing is `List.flatMap`.
The first element of the composed list is the match the engine reports. -/

/-- Whether the character at index `i` is a word character; false outside the
string (`IsWordChar` of ECMA-262 §22.2.2). -/
def wordAt (s : List Char) (i : Nat) : Bool :=
  match s[i]? with
  | some c => isWordChar c
  | none => false

/-- Whether the character at index `i` is matched by `\d`, that is `[0-9]`. -/
def digitAt (s : List Char) (i : Nat) : Bool :=
  match s[i]? with
  | some c => c.isDigit
  | none => false

/-- The assertion `\b` at position `i`: exactly one of the characters before
and after the position is a word character. -/
def wordBoundary (s : List Char) (i : Nat) : Bool :=
  (if i = 0 then false else wordAt s (i - 1)) != wordAt s i

/-- The piece `\$?`: consume a dollar sign if there is one, else nothing. -/
def optDollar (s : List Char) (i : Nat) : List Nat :=
  (if s[i]? = some '$' then [i + 1] else []) ++ [i]

/-- The piece `\b`. -/
def atBoundary (s : List Char) (i : Nat) : List Nat :=
  if wordBoundary s i then [i] else []

/-- Length of the longest run of digits that starts at index `i`. -/
def digitRun (s : List Char) (i : Nat) : Nat :=
  ((s.drop i).takeWhile Char.isDigit).length

/-- The piece `\d+`: every non-empty run of digits from `i`, longest first. -/
def digitsPlus (s : List Char) (i : Nat) : List Nat :=
  ((List.range (digitRun s i)).map fun k => i + k + 1).reverse

/-- The piece `\d{1,2}`: two digits if possible, else one. -/
def digits12 (s : List Char) (i : Nat) : List Nat :=
  if digitAt s i then (if digitAt s (i + 1) then [i + 2] else []) ++ [i + 1] else []

/-- The piece `(?:\.\d{1,2})?`: a fraction if possible, else nothing. -/
def optFraction (s : List Char) (i : Nat) : List Nat :=
  (if s[i]? = some '.' then digits12 s (i + 1) else []) ++ [i]

/-- The whole pattern tried with its start at index `i`.  Each result is the
pair (start of capture group 1, end of the match); group 1 ends where the
match ends. -/
def amountPatternAt (s : List Char) (i : Nat) : List (Nat × Nat) :=
  (optDollar s i).flatMap fun a =>
  (atBoundary s a).flatMap fun b =>
  (digitsPlus s b).flatMap fun c =>
  (optFraction s c).flatMap fun d =>
  (atBoundary s d).map fun e => (b, e)

/-- `desc.match(pattern)` for a pattern without the `g` flag: the start index
runs from 0 to the length of the subject and the first index at which the
pattern matches wins.  Returns the bounds of capture group 1. -/
def amountMatch (s : List Char) : Option (Nat × Nat) :=
  (List.range (s.length + 1)).findSome? fun i => (amountPatternAt s i).head?

/-- Value of a digit character. -/
def digitValue (c : Char) : Nat := c.toNat - '0'.toNat

/-- Value of a run of decimal digits. -/
def natOfDigits (ds : List Char) : Nat :=
  ds.foldl (fun n c => 10 * n + digitValue c) 0

/-- `parseFloat` on the texts capture group 1 can hold: digits, optionally
followed by a point and further digits.  The longest such prefix of the text
is read as a decimal, and the result is the Number value for that decimal:
the nearest double. -/
def parseFloat (t : List Char) : JSNumber :=
  let whole := t.takeWhile Char.isDigit
  match t.dropWhile Char.isDigit with
  | '.' :: rest =>
    let frac := rest.takeWhile Char.isDigit
    numberValue (natOfDigits whole * 10 ^ frac.length + natOfDigits frac) (10 ^ frac.length)
  | _ => numberValue (natOfDigits whole) 1

/-- The text between two indices of a string. -/
def slice (s : List Char) (b e : Nat) : List Char := (s.drop b).take (e - b)

/-- The amount computed by `handleQuickEntry` from the (trimmed) description:
`0.0` unless the pattern matches, else `parseFloat(amountMatch[1])`. -/
def extractAmount (desc : String) : JSNumber :=
  match amountMatch desc.toList with
  | some (b, e) => parseFloat (slice desc.toList b e)
  | none => .finite 0

/-! ### The specification's wording of the amount token -/

/-- A token of the description in the specification's words, occupying the
indices from `i` up to `e`: an optional leading dollar sign, one or more digits
and an optional fraction of one or two digits, with a word boundary before the
first digit and after the last character.  `b` is the index of the first
digit and `c` the index just after the integer digits. -/
def IsAmountToken (s : List Char) (i e : Nat) : Prop :=
  ∃ b c, (b = i ∨ (s[i]? = some '$' ∧ b = i + 1)) ∧
    wordBoundary s b = true ∧ b < c ∧ (∀ k, b ≤ k → k < c → digitAt s k = true) ∧
    (e = c ∨ (s[c]? = some '.' ∧ (e = c + 2 ∨ e = c + 3) ∧
      ∀ k, c < k → k < e → digitAt s k = true)) ∧
    wordBoundary s e = true

/-- The digits of a decimal text, the point left out, most significant
first. -/
def decimalDigits (t : List Char) : List Nat :=
  (t.filter Char.isDigit).map digitValue

/-- The number of characters a decimal text has after its point; 0 when it
has no point. -/
def fractionLength (t : List Char) : Nat :=
  ((t.dropWhile fun c => c != '.').drop 1).length

/-- The numeric value of the token occupying the indices from `i` up to `e`:
its text without the dollar sign denotes the decimal
`N / 10 ^ fractionLength`, where `N` is the positional value of its digits. -/
def tokenDecimal (s : List Char) (i e : Nat) : ℚ :=
  let text := slice s (if s[i]? = some '$' then i + 1 else i) e
  (Nat.ofDigits 10 (decimalDigits text).reverse : ℚ) / (10 : ℚ) ^ fractionLength text

/-- The value of the token as a JavaScript number: the Number value for the
decimal it denotes. -/
def tokenValue (s : List Char) (i e : Nat) : JSNumber :=
  let text := slice s (if s[i]? = some '$' then i + 1 else i) e
  numberValue (Nat.ofDigits 10 (decimalDigits text).reverse) (10 ^ fractionLength text)

/-! ## JavaScript values

The values `JSON.parse` can produce, together with `undefined` (the result of
reading a property that is absent).  A number is given by the decimal its JSON
literal denotes, `mantissa * 10 ^ exponent`; the value the program sees is the
double nearest to that decimal. -/

/-- A JavaScript value. -/
inductive JSValue where
  | undefined
  | null
  | bool (b : Bool)
  | num (mantissa : Int) (exponent : Int)
  | str (s : String)
  | arr (items : List JSValue)
  | obj (fields : List (String × JSValue))

namespace JSValue

/-- `ToBoolean`: the test made by `v ? a : b`, `!v` and `v || w`. -/
def truthy : JSValue → Bool
  | undefined => false
  | null => false
  | bool b => b
  | num m e => decimalToDouble m.natAbs e != some (0, 0)
  | str s => s != ""
  | arr _ => true
  | obj _ => true

/-- The value of the own property `name` of an object parsed from the
members `fields` of a JSON text: that of the last member of this name. -/
def field (fields : List (String × JSValue)) (name : String) : Option JSValue :=
  fields.reverse.lookup name

mutual
/-- `ToString`: the conversion made by a template literal and by
`new Error(v)`; `none` stands for the `TypeError` the conversion throws.  An
array is the comma-separated list of its elements, where `null` and
`undefined` elements are empty.  An object is converted by the `toString`
method it inherits, unless it has an own property of that name: a value
parsed from JSON is no function, and the conversion throws. -/
def toStr : JSValue → Option String
  | undefined => some "undefined"
  | null => some "null"
  | bool b => some (if b then "true" else "false")
  | num m e => some (numberText m e)
  | str s => some s
  | arr items => joinItems items
  | obj fields => if fields.any (fun kv => kv.1 == "toString") then none else some "[object Object]"
termination_by structural v => v
/-- `Array.prototype.join` with the default separator. -/
def joinItems : List JSValue → Option String
  | [] => some ""
  | x :: rest =>
    match (match x with
      | undefined => some ""
      | null => some ""
      | v => toStr v), joinItems rest with
    | some first, some others => some (first ++ (if rest.isEmpty then "" else ",") ++ others)
    | _, _ => none
termination_by structural l => l
end

/-- The property read `v.name`, for the data field names the program reads
(`detail`, `batch_id`, `message`, ...; none of them is a built-in member of a
string, number, boolean, array or object).  `none` stands for the `TypeError`
that reading a property of `null` or `undefined` throws. -/
def getProp (v : JSValue) (name : String) : Option JSValue :=
  match v with
  | undefined => none
  | null => none
  | obj fields => some ((field fields name).getD undefined)
  | _ => some undefined

/-- The string an element shows after `element.textContent = v`: `null` and
`undefined` clear the text, any other value is converted to a string; `none`
when that conversion throws. -/
def domText : JSValue → Option String
  | undefined => some ""
  | null => some ""
  | v => v.toStr

end JSValue

/-- An `Error` object, as far as the program looks at it. -/
structure JSError where
  message : String
  deriving DecidableEq, Repr

/-- The engine-defined part of the run: the messages of the `TypeError`
thrown when the named property of `null` is read, and when a value that has
no string form is converted to a string. -/
structure Engine where
  nullReadMessage : String → String
  toPrimitiveMessage : String

/-- The wording of V8 (Chromium, Node.js) for these messages. -/
def Engine.v8 : Engine :=
  ⟨fun name => "Cannot read properties of null (reading \x27" ++ name ++ "\x27)",
    "Cannot convert object to primitive value"⟩

/-! ## Effects -/

/-- The `type` argument of `showToast`. -/
inductive ToastType where
  | success | error | info | warning
  deriving DecidableEq, Repr

/-- The `body` of a request. -/
inductive RequestBody where
  | empty
  | json (v : JSValue)
  | formData (fileName : String)
  /-- `JSON.stringify({ description: description, amount: amount })`. -/
  | transaction (description : String) (amount : JSNumber)

/-- The `options` argument of `fetch`: the method, whether the header
`Content-Type: application/json` is set, and the body
(`json v` stands for `JSON.stringify(v)`). -/
structure RequestInit where
  method : String
  jsonContentType : Bool
  body : RequestBody

/-- The options of a plain `apiFetch(endpoint)` call. -/
def RequestInit.get : RequestInit := ⟨"GET", false, .empty⟩

/-- The options of a `POST` without body. -/
def RequestInit.post : RequestInit := ⟨"POST", false, .empty⟩

/-- The options of a `POST` of `JSON.stringify(v)`. -/
def RequestInit.postJson (v : JSValue) : RequestInit := ⟨"POST", true, .json v⟩

/-- What a run of a handler does to the outside world, one step at a time. -/
inductive Effect where
  /-- `fetch(API_BASE_URL + endpoint, options)` is issued. -/
  | fetch (endpoint : String) (options : RequestInit)
  /-- `showToast(message, type)`. -/
  | toast (message : String) (type : ToastType)
  /-- `element.textContent = text`. -/
  | setText (id : String) (text : String)
  /-- `element.innerHTML = html`. -/
  | setHtml (id : String) (html : String)
  /-- `element.style.width = width`. -/
  | setWidth (id : String) (width : String)
  /-- `element.classList.add(cls)`. -/
  | addClass (id : String) (cls : String)
  /-- `element.classList.remove(cls)`. -/
  | removeClass (id : String) (cls : String)
  /-- `element.remove()`. -/
  | removeElement (id : String)
  /-- A call of an `async` function of the program that is not awaited. -/
  | spawn (fn : String)
  /-- `setTimeout(callback, ms)`, with the effects of the callback. -/
  | later (ms : Nat) (effects : List Effect)
  /-- `e.preventDefault()` on the event being handled. -/
  | preventDefault
  /-- `element.disabled = value`. -/
  | setDisabled (id : String) (value : Bool)
  /-- `element.value = text`. -/
  | setValue (id : String) (text : String)
  /-- `element.focus()`. -/
  | focus (id : String)
  /-- `document.querySelectorAll(selector).forEach(x => x.classList.add(cls))`. -/
  | addClassAll (selector : String) (cls : String)
  /-- `document.querySelectorAll(selector).forEach(x => x.classList.remove(cls))`. -/
  | removeClassAll (selector : String) (cls : String)
  /-- `document.querySelector(selector).classList.add(cls)`. -/
  | addClassAt (selector : String) (cls : String)

/-- Whether an effect is a network request. -/
def Effect.isFetch : Effect → Bool
  | .fetch _ _ => true
  | _ => false

/-- Whether an effect is a notification. -/
def Effect.isToast : Effect → Bool
  | .toast _ _ => true
  | _ => false

/-- Whether an effect writes to the page (anything but a request or a
notification). -/
def Effect.isDomWrite : Effect → Bool
  | .fetch _ _ => false
  | .toast _ _ => false
  | .preventDefault => false
  | _ => true

/-- The run of an `async` function: the effects it performed, in order, and
the error its promise is rejected with, if any. -/
structure Run where
  effects : List Effect
  thrown : Option JSError

/-! ## `apiFetch` (`app.js` 70–86) -/

/-- What the awaited `fetch` call and `res.json()` can produce. -/
inductive FetchOutcome where
  /-- `fetch` rejects with an error of this message: no response arrived. -/
  | rejected (message : String)
  /-- A response arrived, with this status code; `json` is the outcome of
  `res.json()`: the parsed body, or the message of the `SyntaxError` of a body
  that is not JSON. -/
  | response (status : Nat) (json : Except String JSValue)

/-- `res.ok`: the status is in the range 200–299. -/
def isOk (status : Nat) : Bool := decide (200 ≤ status) && decide (status ≤ 299)

/-- `haystack.includes(needle)`. -/
def includes (haystack needle : String) : Bool :=
  haystack.toList.tails.any fun t => needle.toList.isPrefixOf t

/-- The text of the notification for an unreachable backend. -/
def cannotConnectText : String := "Cannot connect to backend. Is the server running?"

/-- The `try` block of `apiFetch`: the parsed body of a 2xx response, or the
error thrown. -/
def apiFetchTry (eng : Engine) : FetchOutcome → Except JSError JSValue
  | .rejected message => .error ⟨message⟩
  | .response status json =>
    if isOk status then
      match json with
      | .ok data => .ok data
      | .error syntaxMessage => .error ⟨syntaxMessage⟩
    else
      -- `const err = await res.json().catch(() => ({}))`
      let err : JSValue := match json with
        | .ok body => body
        | .error _ => .obj []
      -- `throw new Error(err.detail || "HTTP " + res.status)`
      match err.getProp "detail" with
      | none => .error ⟨eng.nullReadMessage "detail"⟩
      | some detail =>
        if detail.truthy then
          -- `new Error(detail)` converts the value to a string
          match detail.toStr with
          | some text => .error ⟨text⟩
          | none => .error ⟨eng.toPrimitiveMessage⟩
        else .error ⟨"HTTP " ++ toString status⟩

/-- The notification the `catch` block of `apiFetch` shows for an error. -/
def apiErrorToast (error : JSError) : Effect :=
  if includes error.message "Failed to fetch" then .toast cannotConnectText .error
  else .toast error.message .error

/-- `apiFetch(endpoint, options)`: the effects performed, and the value
returned or the error re-thrown. -/
def apiFetch (eng : Engine) (endpoint : String) (options : RequestInit) (o : FetchOutcome) :
    List Effect × Except JSError JSValue :=
  match apiFetchTry eng o with
  | .ok data => ([.fetch endpoint options], .ok data)
  | .error error => ([.fetch endpoint options, apiErrorToast error], .error error)

/-! ## Upload (`app.js` 163–203) -/

/-- `uploadFile(file)`, started with the given value of the global
`currentBatchId`, for a file of the given name.  Returns the value of
`currentBatchId` when the function settles, and its run. -/
def uploadFile (eng : Engine) (fileName : String) (currentBatchId : JSValue) (o : FetchOutcome) :
    JSValue × Run :=
  let before : List Effect :=
    [ .removeClass "uploadProgress" "hidden",
      .addClass "uploadResult" "hidden",
      .addClass "classifyResult" "hidden",
      .setWidth "uploadBar" "30%",
      .setText "uploadStatusText" ("Uploading " ++ fileName ++ "..."),
      .setWidth "uploadBar" "60%" ]
  let failed (error : JSError) : List Effect :=
    [ .setWidth "uploadBar" "0%",
      .setText "uploadStatusText" "Upload failed",
      .toast ("Upload failed: " ++ error.message) .error ]
  match apiFetch eng "/transactions/upload" ⟨"POST", false, .formData fileName⟩ o with
  | (fx, .error error) => (currentBatchId, ⟨before ++ fx ++ failed error, none⟩)
  | (fx, .ok data) =>
    let done : List Effect :=
      [ .setWidth "uploadBar" "100%", .setText "uploadStatusText" "Upload complete!" ]
    -- `currentBatchId = data.batch_id`
    match data.getProp "batch_id" with
    | none =>
      (currentBatchId, ⟨before ++ fx ++ done ++ failed ⟨eng.nullReadMessage "batch_id"⟩, none⟩)
    | some batchId =>
      -- the callback of `setTimeout`, which ends where a conversion throws
      let shown : List Effect :=
        [ .addClass "uploadProgress" "hidden", .removeClass "uploadResult" "hidden" ] ++
        match ((data.getProp "message").getD .undefined).domText with
        | none => []
        | some message =>
          .setText "uploadResultText" message ::
          match batchId.toStr with
          | none => []
          | some idText => [.setText "uploadBatchId" ("Batch ID: " ++ idText)]
      match ((data.getProp "total_transactions").getD .undefined).toStr with
      | some count =>
        (batchId, ⟨before ++ fx ++ done ++
          [ .later 500 shown, .toast (count ++ " transactions uploaded") .success ], none⟩)
      | none =>
        (batchId, ⟨before ++ fx ++ done ++ [.later 500 shown] ++
          failed ⟨eng.toPrimitiveMessage⟩, none⟩)

/-! ## Classify all (`app.js` 209–234) -/

/-- The template literal assigned to the `innerHTML` of `classifyDetails`, with
the four interpolated texts as arguments. -/
def classifyTally (total auto pending manual : String) : String :=
  "\n            <div class=\"flex justify-between\"><span class=\"text-gray-400\">Total Classified</span><span class=\"font-semibold text-white\">" ++
    total ++
    "</span></div>\n            <div class=\"flex justify-between\"><span class=\"text-emerald-400\">✓ Auto-Posted</span><span class=\"font-semibold text-emerald-300\">" ++
    auto ++
    "</span></div>\n            <div class=\"flex justify-between\"><span class=\"text-amber-400\">⏳ Pending Review</span><span class=\"font-semibold text-amber-300\">" ++
    pending ++
    "</span></div>\n            <div class=\"flex justify-between\"><span class=\"text-red-400\">✋ Manual Required</span><span class=\"font-semibold text-red-300\">" ++
    manual ++
    "</span></div>\n        "

/-- The object passed to `JSON.stringify` by `classifyAll`:
`currentBatchId ? { batch_id: currentBatchId } : {}`. -/
def classifyBody (currentBatchId : JSValue) : JSValue :=
  if currentBatchId.truthy then .obj [("batch_id", currentBatchId)] else .obj []

/-- `classifyAll()`, run with the given value of `currentBatchId`. -/
def classifyAll (eng : Engine) (currentBatchId : JSValue) (o : FetchOutcome) : Run :=
  let start : List Effect := [.toast "Classifying transactions..." .info]
  match apiFetch eng "/predictions/classify" (.postJson (classifyBody currentBatchId)) o with
  | (fx, .error _) => ⟨start ++ fx ++ [.toast "Classification failed" .error], none⟩
  | (fx, .ok data) =>
    -- the first property read of the template throws when `data` is `null`
    match data.getProp "total_classified", data.getProp "auto_posted",
        data.getProp "pending_review", data.getProp "manual_required" with
    | some total, some auto, some pending, some manual =>
      -- the template converts the four values to strings, and throws if one
      -- of them has no string form
      match total.toStr, auto.toStr, pending.toStr, manual.toStr with
      | some totalText, some autoText, some pendingText, some manualText =>
        ⟨start ++ fx ++
          [ .removeClass "classifyResult" "hidden",
            .setHtml "classifyDetails"
              (classifyTally totalText autoText pendingText manualText),
            .toast ("Classified " ++ totalText ++ " transactions") .success,
            .spawn "loadDashboardStats" ], none⟩
      | _, _, _, _ =>
        ⟨start ++ fx ++
          [ .removeClass "classifyResult" "hidden",
            .toast "Classification failed" .error ], none⟩
    | _, _, _, _ =>
      ⟨start ++ fx ++
        [ .removeClass "classifyResult" "hidden",
          .toast "Classification failed" .error ], none⟩

/-! ## Review actions (`app.js` 424–460) -/

/-- The characters `String.prototype.trim` strips: the `WhiteSpace` and
`LineTerminator` code points of ECMA-262. -/
def isJSWhiteSpace (c : Char) : Bool :=
  let n := c.toNat
  n == 0x9 || n == 0xA || n == 0xB || n == 0xC || n == 0xD || n == 0x20 || n == 0xA0 ||
  n == 0x1680 || (decide (0x2000 ≤ n) && decide (n ≤ 0x200A)) || n == 0x2028 || n == 0x2029 ||
  n == 0x202F || n == 0x205F || n == 0x3000 || n == 0xFEFF

/-- `s.trim()`. -/
def jsTrim (s : String) : String :=
  String.mk ((s.toList.dropWhile isJSWhiteSpace).reverse.dropWhile isJSWhiteSpace).reverse

/-- The object passed to `JSON.stringify` by `rejectReview`. -/
def rejectBody (glCode reason : String) : JSValue :=
  .obj [ ("corrected_gl_code", .str glCode),
         ("reason", if reason ≠ "" then .str reason else .null),
         ("corrected_by", .str "analyst") ]

/-- `rejectReview(predictionId)`, called from the button of a review card;
`corrGL` and `corrReason` are the values of the two inputs of that card.  The
first statement builds the id of the input from `predictionId`, outside the
`try` block: when the value has no string form the function throws there. -/
def rejectReview (eng : Engine) (predictionId : JSValue) (corrGL corrReason : String)
    (o : FetchOutcome) : Run :=
  match predictionId.toStr with
  | none => ⟨[], some ⟨eng.toPrimitiveMessage⟩⟩
  | some idText =>
    let glCode := jsTrim corrGL
    let reason := jsTrim corrReason
    if glCode = "" then
      ⟨[.toast "Please enter the corrected GL code" .warning], none⟩
    else
      match apiFetch eng ("/reviews/" ++ idText ++ "/reject")
          (.postJson (rejectBody glCode reason)) o with
      | (fx, .ok _) =>
        ⟨fx ++ [ .toast "Correction saved & posted to ERP" .success,
                 .removeElement ("review-" ++ idText),
                 .spawn "loadDashboardStats" ], none⟩
      | (fx, .error error) =>
        ⟨fx ++ [.toast ("Rejection failed: " ++ error.message) .error], none⟩

/-! ## Passive loaders (`app.js` 92–145, 292–327, 360–422, 466–492, 512–526)

The HTML of a table row or card is produced by a template literal that reads
fields of one element of the response and formats numbers for the locale of
the browser.  The loaders take that template as a parameter: a function from
the element to the HTML of its row, or `none` when evaluating the template
throws.  Everything a loader does around the template is embedded as it is. -/

/-- `items.map(row).join('')`: `none` as soon as one row throws. -/
def renderRows (row : JSValue → Option String) (items : List JSValue) : Option String :=
  (items.mapM row).map String.join

/-- The body of `loadPredictions`, `loadReviewQueue` and `loadAuditLogs` after
the response `v` has arrived:
`if (v.length === 0) { body.innerHTML = ''; empty.classList.remove('hidden'); return; }`
`empty.classList.add('hidden'); body.innerHTML = v.map(row).join('');`.
The result is the list of effects performed before the block ends or throws;
a value parsed from JSON holds no function, so `v.map` can only be called on
an array. -/
def renderList (bodyId emptyId : String) (row : JSValue → Option String) :
    JSValue → List Effect
  | .undefined => []
  | .null => []
  | .arr [] => [.setHtml bodyId "", .removeClass emptyId "hidden"]
  | .arr (x :: xs) =>
    match renderRows row (x :: xs) with
    | some html => [.addClass emptyId "hidden", .setHtml bodyId html]
    | none => [.addClass emptyId "hidden"]
  | .str s =>
    if s = "" then [.setHtml bodyId "", .removeClass emptyId "hidden"]
    else [.addClass emptyId "hidden"]
  | .obj fields =>
    match JSValue.field fields "length" with
    | some (.num m e) =>
      if decimalToDouble m.natAbs e = some (0, 0) then
        [.setHtml bodyId "", .removeClass emptyId "hidden"]
      else [.addClass emptyId "hidden"]
    | _ => [.addClass emptyId "hidden"]
  | _ => [.addClass emptyId "hidden"]

/-- `loadPredictions()`; `statusFilter` is the value of the status select. -/
def loadPredictions (eng : Engine) (row : JSValue → Option String) (statusFilter : String)
    (o : FetchOutcome) : Run :=
  let params := if statusFilter ≠ "" then "?status=" ++ statusFilter ++ "&limit=100"
    else "?limit=100"
  match apiFetch eng ("/predictions" ++ params) .get o with
  | (fx, .error _) => ⟨fx, none⟩
  | (fx, .ok predictions) =>
    ⟨fx ++ renderList "predictionsBody" "predictionsEmpty" row predictions, none⟩

/-- `loadReviewQueue()`. -/
def loadReviewQueue (eng : Engine) (card : JSValue → Option String) (o : FetchOutcome) : Run :=
  match apiFetch eng "/reviews/queue?limit=50" .get o with
  | (fx, .error _) => ⟨fx, none⟩
  | (fx, .ok items) => ⟨fx ++ renderList "reviewQueue" "reviewEmpty" card items, none⟩

/-- `loadAuditLogs()`; `actionFilter` is the value of the action select. -/
def loadAuditLogs (eng : Engine) (row : JSValue → Option String) (actionFilter : String)
    (o : FetchOutcome) : Run :=
  let params := if actionFilter ≠ "" then "?action=" ++ actionFilter ++ "&limit=100"
    else "?limit=100"
  match apiFetch eng ("/audit/logs" ++ params) .get o with
  | (fx, .error _) => ⟨fx, none⟩
  | (fx, .ok logs) => ⟨fx ++ renderList "auditBody" "auditEmpty" row logs, none⟩

/-- `loadCOA()`: `body.innerHTML = accounts.map(row).join('')`. -/
def loadCOA (eng : Engine) (row : JSValue → Option String) (o : FetchOutcome) : Run :=
  match apiFetch eng "/transactions/coa" .get o with
  | (fx, .error _) => ⟨fx, none⟩
  | (fx, .ok (.arr accounts)) =>
    match renderRows row accounts with
    | some html => ⟨fx ++ [.setHtml "coaBody" html], none⟩
    | none => ⟨fx, none⟩
  | (fx, .ok _) => ⟨fx, none⟩

/-- The two rendering blocks of `loadDashboardStats`, each a function from the
response to the page writes it performs and whether it ran to its end
(`false` when it threw): the block that shows the statistics (lines 96–135)
and the block that shows the vector count (lines 140–141). -/
structure DashboardView where
  showStats : JSValue → List Effect × Bool
  showVectors : JSValue → List Effect

/-- `loadDashboardStats()`; `oStats` is the outcome of the request for
`/dashboard/stats` and `oMl` that of the request for `/ml/status`, which is
issued only when the statistics were shown without an error. -/
def loadDashboardStats (eng : Engine) (view : DashboardView) (oStats oMl : FetchOutcome) : Run :=
  match apiFetch eng "/dashboard/stats" .get oStats with
  | (fx, .error _) => ⟨fx, none⟩
  | (fx, .ok stats) =>
    match view.showStats stats with
    | (page, false) => ⟨fx ++ page, none⟩
    | (page, true) =>
      match apiFetch eng "/ml/status" .get oMl with
      | (fxMl, .error _) => ⟨fx ++ page ++ fxMl, none⟩
      | (fxMl, .ok ml) => ⟨fx ++ page ++ fxMl ++ view.showVectors ml, none⟩

/-- The element an effect writes to, by its id, when it writes to one. -/
def Effect.target : Effect → Option String
  | .setText id _ => some id
  | .setHtml id _ => some id
  | .setWidth id _ => some id
  | .addClass id _ => some id
  | .removeClass id _ => some id
  | .removeElement id => some id
  | .setDisabled id _ => some id
  | .setValue id _ => some id
  | .focus id => some id
  | _ => none

/-- The requests of a trace, in the order in which they were issued. -/
def requests : List Effect → List (String × RequestInit)
  | [] => []
  | .fetch endpoint options :: rest => (endpoint, options) :: requests rest
  | _ :: rest => requests rest

/-! ## Tab navigation (`app.js` 13–31) -/

/-- The own properties of the object literal `loaders` in `switchTab`: the
loader of each tab that has one. -/
def tabLoaders : List (String × String) :=
  [ ("dashboard", "loadDashboardStats"),
    ("results", "loadPredictions"),
    ("review", "loadReviewQueue"),
    ("audit", "loadAuditLogs"),
    ("coa", "loadCOA") ]

/-- `switchTab(tabName)`, for the name of a tab of the page: all tabs are
hidden and all buttons deactivated, the named tab is shown and its button
activated, and the loader of the tab, if it has one, is called without being
awaited. -/
def switchTab (tabName : String) : List Effect :=
  [ .addClassAll ".tab-content" "hidden",
    .removeClassAll ".tab-btn" "active",
    .removeClass ("tab-" ++ tabName) "hidden",
    .addClassAt ("[data-tab=\"" ++ tabName ++ "\"]") "active" ] ++
  match tabLoaders.lookup tabName with
  | some loader => [.spawn loader]
  | none => []

/-! ## Quick entry (`app.js` 240–286) -/

/-- The options of the request that creates the transaction. -/
def createTransactionRequest (desc : String) : RequestInit :=
  ⟨"POST", true, .transaction desc (extractAmount desc)⟩

/-- The options of the request that classifies the transaction of the given
id: the body is `JSON.stringify({ transaction_ids: [id] })`. -/
def classifyOneRequest (id : JSValue) : RequestInit :=
  .postJson (.obj [("transaction_ids", .arr [id])])

/-- `handleQuickEntry(e)`; `quickDesc` is the value of the description input,
`oCreate` the outcome of the request that creates the transaction and
`oClassify` the outcome of the request that classifies it, should it be
issued.  The `finally` block ends every run that got past the blank check. -/
def handleQuickEntry (eng : Engine) (quickDesc : String) (oCreate oClassify : FetchOutcome) :
    Run :=
  let desc := jsTrim quickDesc
  if desc = "" then ⟨[.preventDefault], none⟩
  else
    let start : List Effect :=
      [ .preventDefault, .setDisabled "quickDesc" true, .toast "Classifying..." .info ]
    let failed (error : JSError) : List Effect :=
      [.toast ("Failed to classify: " ++ error.message) .error]
    let finish : List Effect := [.setDisabled "quickDesc" false, .focus "quickDesc"]
    -- 1. Create transaction
    match apiFetch eng "/transactions" (createTransactionRequest desc) oCreate with
    | (fx, .error error) => ⟨start ++ fx ++ failed error ++ finish, none⟩
    | (fx, .ok txn) =>
      -- 2. Classify it; reading `txn.id` throws when `txn` is `null`
      match txn.getProp "id" with
      | none => ⟨start ++ fx ++ failed ⟨eng.nullReadMessage "id"⟩ ++ finish, none⟩
      | some id =>
        match apiFetch eng "/predictions/classify" (classifyOneRequest id) oClassify with
        | (fxClassify, .error error) =>
          ⟨start ++ fx ++ fxClassify ++ failed error ++ finish, none⟩
        | (fxClassify, .ok _) =>
          ⟨start ++ fx ++ fxClassify ++
            [ .toast "Classification complete!" .success,
              .setValue "quickDesc" "",
              .spawn "loadDashboardStats" ] ++
            switchTab "results" ++ finish, none⟩

/-! ## Dashboard statistics (`app.js` 96–141)

The statistics are shown from a `DashboardStats` value, the view-model the
response of `/dashboard/stats` is deserialized to.  Formatting that depends on
the locale of the browser or on binary floating point is left open. -/

/-- The statistics of the dashboard. -/
structure DashboardStats where
  total_transactions : Int
  auto_posted_count : Int
  pending_review_count : Int
  manual_required_count : Int
  approved_count : Int
  rejected_count : Int
  total_predictions : Int
  total_erp_postings : Int
  avg_confidence : ℚ
  correction_rate : ℚ

/-- The number formatting the embedding leaves open. -/
structure Formatter where
  /-- `n.toLocaleString()`. -/
  localeString : Int → String
  /-- The conversion of a number to a string by a template literal. -/
  numberText : ℚ → String
  /-- `x.toFixed(1)` for a finite number. -/
  toFixed1 : ℚ → String

/-- The number `count / total * 100`, when it is one: `none` stands for
`Infinity`, `-Infinity` and `NaN`, the results of dividing by zero. -/
def percentOf (count total : Int) : Option ℚ :=
  if total = 0 then none else some ((count : ℚ) / (total : ℚ) * 100)

/-- One element of the array `items` of the classification breakdown; `pct`
is the number `count / total * 100` before `.toFixed(1)`. -/
structure BreakdownItem where
  label : String
  count : Int
  color : String
  pct : Option ℚ

/-- The block `if (stats.total_predictions > 0) { ... }`: the array `items`
it builds, or `none` when the block is skipped. -/
def classificationBreakdown (stats : DashboardStats) : Option (List BreakdownItem) :=
  if stats.total_predictions > 0 then
    let total := stats.total_predictions
    some
      [ ⟨"Auto-Posted", stats.auto_posted_count, "bg-emerald-400",
          percentOf stats.auto_posted_count total⟩,
        ⟨"Pending Review", stats.pending_review_count, "bg-amber-400",
          percentOf stats.pending_review_count total⟩,
        ⟨"Manual Required", stats.manual_required_count, "bg-red-400",
          percentOf stats.manual_required_count total⟩,
        ⟨"Approved", stats.approved_count, "bg-blue-400",
          percentOf stats.approved_count total⟩,
        ⟨"Rejected", stats.rejected_count, "bg-purple-400",
          percentOf stats.rejected_count total⟩ ]
  else none

/-- The text of `pct`: `.toFixed(1)` of the number, which for a value that is
not finite is its name. -/
def pctText (fmt : Formatter) (item : BreakdownItem) : String :=
  match item.pct with
  | some q => fmt.toFixed1 q
  | none => if item.count > 0 then "Infinity" else if item.count < 0 then "-Infinity" else "NaN"

/-- The template literal of one item of the breakdown, with the interpolated
texts as arguments. -/
def breakdownItemHtml (label count pct color : String) : String :=
  "\n                <div>\n                    <div class=\"flex justify-between text-sm mb-1\">\n                        <span class=\"text-gray-400\">" ++
    label ++
    "</span>\n                        <span class=\"font-medium text-gray-300\">" ++
    count ++
    " (" ++
    pct ++
    "%)</span>\n                    </div>\n                    <div class=\"conf-bar\"><div class=\"conf-bar-fill " ++
    color ++
    "\" style=\"width:" ++
    pct ++
    "%\"></div></div>\n                </div>\n            "

/-- `items.map(i => ...).join('')`. -/
def breakdownHtml (fmt : Formatter) (items : List BreakdownItem) : String :=
  String.join (items.map fun i =>
    breakdownItemHtml i.label (numberText i.count 0) (pctText fmt i) i.color)

/-- The block of `loadDashboardStats` between the two requests, for a
`DashboardStats` value: the KPI tiles, the review badge and the
classification breakdown. -/
def renderStats (fmt : Formatter) (stats : DashboardStats) : List Effect :=
  let reviewCount := stats.pending_review_count + stats.manual_required_count
  [ .setText "kpi-total-txn" (fmt.localeString stats.total_transactions),
    .setText "kpi-auto-posted" (fmt.localeString stats.auto_posted_count),
    .setText "kpi-pending" (fmt.localeString stats.pending_review_count),
    .setText "kpi-manual" (fmt.localeString stats.manual_required_count),
    .setText "kpi-avg-conf"
      (if stats.avg_confidence > 0 then fmt.numberText stats.avg_confidence ++ "%" else "–"),
    .setText "kpi-erp" (fmt.localeString stats.total_erp_postings),
    .setText "kpi-corrections"
      (fmt.localeString (if stats.rejected_count ≠ 0 then stats.rejected_count else 0)),
    .setText "kpi-corr-rate" (fmt.numberText stats.correction_rate ++ "%") ] ++
  (if reviewCount > 0 then
    [.setText "reviewBadge" (numberText reviewCount 0), .removeClass "reviewBadge" "hidden"]
  else [.addClass "reviewBadge" "hidden"]) ++
  (match classificationBreakdown stats with
    | some items => [.setHtml "classificationBreakdown" (breakdownHtml fmt items)]
    | none => [])

/-- The number held by the named field of a response, if it holds a finite
one: the value of the double its literal is parsed to. -/
def numberField (v : JSValue) (name : String) : Option ℚ :=
  match v.getProp name with
  | some (.num m e) =>
    match decimalToDouble m.natAbs e with
    | some (mant, ex) => some ((if m < 0 then -1 else 1) * (mant : ℚ) * (2 : ℚ) ^ ex)
    | none => none
  | _ => none

/-- The integer held by the named field of a response, if it holds one. -/
def intField (v : JSValue) (name : String) : Option Int :=
  match numberField v name with
  | some q => if q.den = 1 then some q.num else none
  | none => none

/-- The `DashboardStats` value a response is deserialized to, when each of
the eight counts holds an integer and each of the two rates a finite
number. -/
def DashboardStats.ofJSValue (v : JSValue) : Option DashboardStats := do
  let total_transactions ← intField v "total_transactions"
  let auto_posted_count ← intField v "auto_posted_count"
  let pending_review_count ← intField v "pending_review_count"
  let manual_required_count ← intField v "manual_required_count"
  let approved_count ← intField v "approved_count"
  let rejected_count ← intField v "rejected_count"
  let total_predictions ← intField v "total_predictions"
  let total_erp_postings ← intField v "total_erp_postings"
  let avg_confidence ← numberField v "avg_confidence"
  let correction_rate ← numberField v "correction_rate"
  pure ⟨total_transactions, auto_posted_count, pending_review_count, manual_required_count,
    approved_count, rejected_count, total_predictions, total_erp_postings,
    avg_confidence, correction_rate⟩

/-- The view of `loadDashboardStats` for responses that hold a
`DashboardStats` value; what the two blocks do with any other response is
left to the parameters `otherStats` and `showVectors`. -/
def dashboardView (fmt : Formatter) (otherStats : JSValue → List Effect × Bool)
    (showVectors : JSValue → List Effect) : DashboardView where
  showStats := fun v =>
    match DashboardStats.ofJSValue v with
    | some stats => (renderStats fmt stats, true)
    | none => otherStats v
  showVectors := showVectors

/-! ## Theorems -/

/-! ### Confidence colours, status text and status badge -/

/-- C1: for every score, `getConfidenceColor` returns the emerald class exactly
when the score is at least 80, the amber class exactly when it is at least 50
and below 80, and the red class exactly when it is below 50;
`getConfidenceBarColor` sorts the score into the same bucket, and one of the
three classes is always returned. -/
theorem confidence_buckets (s : ℚ) :
    (getConfidenceColor s = "text-emerald-400" ↔ 80 ≤ s) ∧
    (getConfidenceColor s = "text-amber-400" ↔ 50 ≤ s ∧ s < 80) ∧
    (getConfidenceColor s = "text-red-400" ↔ s < 50) ∧
    (getConfidenceBarColor s = "bg-emerald-400" ↔ 80 ≤ s) ∧
    (getConfidenceBarColor s = "bg-amber-400" ↔ 50 ≤ s ∧ s < 80) ∧
    (getConfidenceBarColor s = "bg-red-400" ↔ s < 50) ∧
    (getConfidenceColor s = "text-emerald-400" ∨ getConfidenceColor s = "text-amber-400" ∨
      getConfidenceColor s = "text-red-400") := by
  have e1 : ("text-emerald-400" : String) ≠ "text-amber-400" := by decide
  have e2 : ("text-emerald-400" : String) ≠ "text-red-400" := by decide
  have e3 : ("text-amber-400" : String) ≠ "text-red-400" := by decide
  have f1 : ("bg-emerald-400" : String) ≠ "bg-amber-400" := by decide
  have f2 : ("bg-emerald-400" : String) ≠ "bg-red-400" := by decide
  have f3 : ("bg-amber-400" : String) ≠ "bg-red-400" := by decide
  unfold getConfidenceColor getConfidenceBarColor
  by_cases h80 : s ≥ 80
  · have h50 : s ≥ 50 := le_trans (by norm_num) h80
    have n80 : ¬ s < 80 := not_lt.mpr h80
    have n50 : ¬ s < 50 := not_lt.mpr h50
    rw [if_pos h80, if_pos h80]
    exact ⟨⟨fun _ => h80, fun _ => rfl⟩, ⟨fun h => absurd h e1, fun h => absurd h.2 n80⟩,
      ⟨fun h => absurd h e2, fun h => absurd h n50⟩, ⟨fun _ => h80, fun _ => rfl⟩,
      ⟨fun h => absurd h f1, fun h => absurd h.2 n80⟩,
      ⟨fun h => absurd h f2, fun h => absurd h n50⟩, Or.inl rfl⟩
  · by_cases h50 : s ≥ 50
    · have l80 : s < 80 := not_le.mp h80
      have n50 : ¬ s < 50 := not_lt.mpr h50
      rw [if_neg h80, if_neg h80, if_pos h50, if_pos h50]
      exact ⟨⟨fun h => absurd h.symm e1, fun h => absurd h h80⟩, ⟨fun _ => ⟨h50, l80⟩, fun _ => rfl⟩,
        ⟨fun h => absurd h e3, fun h => absurd h n50⟩,
        ⟨fun h => absurd h.symm f1, fun h => absurd h h80⟩, ⟨fun _ => ⟨h50, l80⟩, fun _ => rfl⟩,
        ⟨fun h => absurd h f3, fun h => absurd h n50⟩, Or.inr (Or.inl rfl)⟩
    · have l50 : s < 50 := not_le.mp h50
      rw [if_neg h80, if_neg h80, if_neg h50, if_neg h50]
      exact ⟨⟨fun h => absurd h.symm e2, fun h => absurd h h80⟩,
        ⟨fun h => absurd h.symm e3, fun h => absurd h.1 h50⟩, ⟨fun _ => l50, fun _ => rfl⟩,
        ⟨fun h => absurd h.symm f2, fun h => absurd h h80⟩,
        ⟨fun h => absurd h.symm f3, fun h => absurd h.1 h50⟩, ⟨fun _ => l50, fun _ => rfl⟩,
        Or.inr (Or.inr rfl)⟩

theorem wordAt_cons_succ (c : Char) (cs : List Char) (k : Nat) :
    wordAt (c :: cs) (k + 1) = wordAt cs k := by
  simp [wordAt]

theorem capitalizeWordStarts_getElem? (l : List Char) :
    ∀ (pw : Bool) (i : Nat), (capitalizeWordStarts pw l)[i]? =
      (l[i]?).map fun c =>
        if isWordChar c && !(if i = 0 then pw else wordAt l (i - 1)) then c.toUpper else c := by
  induction l with
  | nil => intro pw i; simp [capitalizeWordStarts]
  | cons c cs ih =>
    intro pw i
    cases i with
    | zero => simp [capitalizeWordStarts]
    | succ j =>
      simp only [capitalizeWordStarts, List.getElem?_cons_succ, ih, Nat.add_sub_cancel]
      cases j with
      | zero => simp [wordAt]
      | succ k => simp [wordAt_cons_succ]

theorem capitalizeWordStarts_length (l : List Char) :
    ∀ pw : Bool, (capitalizeWordStarts pw l).length = l.length := by
  induction l with
  | nil => intro pw; rfl
  | cons c cs ih => intro pw; simp [capitalizeWordStarts, ih]

theorem isWordChar_replaced (c : Char) :
    isWordChar (if c = '_' then ' ' else c) = c.isAlphanum := by
  by_cases h : c = '_'
  · subst h; decide
  · simp [h, isWordChar]

theorem wordAt_replaceUnderscores (l : List Char) (i : Nat) :
    wordAt (replaceUnderscores l) i = alnumAt l i := by
  unfold wordAt alnumAt replaceUnderscores
  rw [List.getElem?_map]
  cases l[i]? with
  | none => rfl
  | some c => simpa using isWordChar_replaced c

/-- C3: `formatStatus` keeps the length of the status and puts at every index
the character the specification asks for: a space for an underscore, the
upper-case form for the first character of each word, the character itself
otherwise; `"pending_review"` becomes `"Pending Review"`, and the empty and
the missing status become the empty string. -/
theorem formatStatus_spec (status : String) :
    (formatStatus (some status)).toList.length = status.toList.length ∧
    (∀ i, (formatStatus (some status)).toList[i]? =
      (status.toList[i]?).map (statusTextChar status.toList i)) ∧
    formatStatus (some "pending_review") = "Pending Review" ∧
    formatStatus (some "") = "" ∧
    formatStatus none = "" := by
  have key : ∀ i, (formatStatus (some status)).toList[i]? =
      (status.toList[i]?).map (statusTextChar status.toList i) := by
    intro i
    show (capitalizeWordStarts false (replaceUnderscores status.toList))[i]? = _
    rw [capitalizeWordStarts_getElem?]
    have hw : (if i = 0 then false else wordAt (replaceUnderscores status.toList) (i - 1))
        = !(i == 0 || !alnumAt status.toList (i - 1)) := by
      rw [wordAt_replaceUnderscores]
      by_cases h0 : i = 0 <;> simp [h0]
    rw [hw]
    unfold replaceUnderscores
    rw [List.getElem?_map]
    cases hc : status.toList[i]? with
    | none => rfl
    | some c =>
      simp only [Option.map_some']
      congr 1
      rw [isWordChar_replaced]
      unfold statusTextChar startsWord alnumAt
      rw [hc]
      by_cases hu : c = '_'
      · subst hu; simp
      · simp [hu]
  refine ⟨?_, key, by decide, by decide, by decide⟩
  show (capitalizeWordStarts false (replaceUnderscores status.toList)).length = _
  rw [capitalizeWordStarts_length]
  simp [replaceUnderscores]

/-- C4: the five known statuses get five distinct non-empty badge classes, but
the status `"constructor"`, which is none of the five, does not get the empty
string: the lookup finds the member of that name which the object literal
inherits from `Object.prototype`. -/
theorem getStatusBadge_constructor :
    getStatusBadge "auto_posted" = .text "badge-auto" ∧
    getStatusBadge "pending_review" = .text "badge-review" ∧
    getStatusBadge "manual_required" = .text "badge-manual" ∧
    getStatusBadge "approved" = .text "badge-approved" ∧
    getStatusBadge "rejected" = .text "badge-rejected" ∧
    getStatusBadge "constructor" = .inherited "constructor" ∧
    getStatusBadge "constructor" ≠ .text "" := by
  decide

/-- A status that is neither one of the five known ones nor the name of a
member of `Object.prototype` gets the empty string. -/
theorem getStatusBadge_unknown (status : String)
    (hknown : status ∉ ["auto_posted", "pending_review", "manual_required", "approved", "rejected"])
    (hproto : status ∉ objectPrototypeKeys) :
    getStatusBadge status = .text "" := by
  simp only [List.mem_cons, List.mem_singleton, not_or, List.not_mem_nil, or_false] at hknown
  obtain ⟨h1, h2, h3, h4, h5⟩ := hknown
  have hl : statusBadgeMap.lookup status = none := by
    simp only [statusBadgeMap, List.lookup, beq_false_of_ne h1, beq_false_of_ne h2,
      beq_false_of_ne h3, beq_false_of_ne h4, beq_false_of_ne h5]
  unfold getStatusBadge
  rw [hl]
  simp [hproto]


/-! ### Rounding to a double

`toDouble` yields a double, no double is nearer to the quotient, and a tie
between two doubles goes to the even mantissa. -/

theorem binaryLog_spec (fuel : Nat) : ∀ n, 0 < n → n ≤ fuel →
    2 ^ binaryLog fuel n ≤ n ∧ n < 2 ^ (binaryLog fuel n + 1) := by
  induction fuel with
  | zero => intro n h1 h2; omega
  | succ fuel ih =>
    intro n h1 h2
    unfold binaryLog
    split
    · simp only [pow_zero, zero_add, pow_one]; omega
    · have h := ih (n / 2) (by omega) (by omega)
      rw [pow_succ, pow_succ, pow_succ]
      rw [pow_succ] at h
      omega

theorem zpow_two_split (t : Int) :
    (2 : ℚ) ^ t = (2 : ℚ) ^ t.toNat / (2 : ℚ) ^ (-t).toNat := by
  rcases le_total 0 t with h | h
  · have h1 : (-t).toNat = 0 := by omega
    rw [h1, pow_zero, div_one, ← zpow_natCast]
    congr 1
    omega
  · have h1 : t.toNat = 0 := by omega
    rw [h1, pow_zero, one_div, ← zpow_natCast, ← zpow_neg]
    congr 1
    omega

theorem le_ratio_iff (n d : Nat) (hd : 0 < d) (t : Int) :
    d * 2 ^ t.toNat ≤ n * 2 ^ (-t).toNat ↔ (2 : ℚ) ^ t ≤ (n : ℚ) / d := by
  have hd' : (0 : ℚ) < d := by exact_mod_cast hd
  have h2 : (0 : ℚ) < (2 : ℚ) ^ (-t).toNat := by positivity
  rw [zpow_two_split, div_le_div_iff₀ h2 hd']
  constructor
  · intro h
    have : ((d * 2 ^ t.toNat : Nat) : ℚ) ≤ ((n * 2 ^ (-t).toNat : Nat) : ℚ) := by
      exact_mod_cast h
    push_cast at this
    linarith
  · intro h
    have : ((d * 2 ^ t.toNat : Nat) : ℚ) ≤ ((n * 2 ^ (-t).toNat : Nat) : ℚ) := by
      push_cast
      linarith
    exact_mod_cast this

theorem floorLog2Ratio_spec (n d : Nat) (hn : 0 < n) (hd : 0 < d) :
    (2 : ℚ) ^ floorLog2Ratio n d ≤ (n : ℚ) / d ∧
    (n : ℚ) / d < (2 : ℚ) ^ (floorLog2Ratio n d + 1) := by
  have hd' : (0 : ℚ) < d := by exact_mod_cast hd
  obtain ⟨ha1, ha2⟩ := binaryLog_spec n n hn le_rfl
  obtain ⟨hb1, hb2⟩ := binaryLog_spec d d hd le_rfl
  have ha1' : (2 : ℚ) ^ (binaryLog n n : Int) ≤ n := by
    rw [zpow_natCast]; exact_mod_cast ha1
  have ha2' : (n : ℚ) < (2 : ℚ) ^ ((binaryLog n n : Int) + 1) := by
    have : (n : ℚ) < (2 : ℚ) ^ (binaryLog n n + 1) := by exact_mod_cast ha2
    rw [← zpow_natCast] at this
    push_cast at this
    exact this
  have hb1' : (2 : ℚ) ^ (binaryLog d d : Int) ≤ d := by
    rw [zpow_natCast]; exact_mod_cast hb1
  have hb2' : (d : ℚ) < (2 : ℚ) ^ ((binaryLog d d : Int) + 1) := by
    have : (d : ℚ) < (2 : ℚ) ^ (binaryLog d d + 1) := by exact_mod_cast hb2
    rw [← zpow_natCast] at this
    push_cast at this
    exact this
  unfold floorLog2Ratio
  simp only
  split
  · rename_i h
    refine ⟨(le_ratio_iff n d hd _).1 h, ?_⟩
    rw [div_lt_iff₀ hd']
    calc (n : ℚ) < (2 : ℚ) ^ ((binaryLog n n : Int) + 1) := ha2'
      _ = (2 : ℚ) ^ ((binaryLog n n : Int) - (binaryLog d d : Int) + 1) *
            (2 : ℚ) ^ (binaryLog d d : Int) := by
          rw [← zpow_add₀ (by norm_num)]; congr 1; ring
      _ ≤ _ := by
          apply mul_le_mul_of_nonneg_left hb1'
          positivity
  · rename_i h
    have h' := mt (le_ratio_iff n d hd _).2 h
    rw [not_le] at h'
    refine ⟨?_, by rw [sub_add_cancel]; exact h'⟩
    rw [le_div_iff₀ hd']
    calc (2 : ℚ) ^ ((binaryLog n n : Int) - (binaryLog d d : Int) - 1) * (d : ℚ)
        ≤ (2 : ℚ) ^ ((binaryLog n n : Int) - (binaryLog d d : Int) - 1) *
            (2 : ℚ) ^ ((binaryLog d d : Int) + 1) := by
          apply mul_le_mul_of_nonneg_left hb2'.le
          positivity
      _ = (2 : ℚ) ^ (binaryLog n n : Int) := by
          rw [← zpow_add₀ (by norm_num)]; congr 1; ring
      _ ≤ n := ha1'

theorem ratio_div_mod (a b : Nat) (hb : 0 < b) :
    (a : ℚ) / b = ((a / b : Nat) : ℚ) + ((a % b : Nat) : ℚ) / b := by
  have hb' : (b : ℚ) ≠ 0 := by exact_mod_cast hb.ne.symm
  have h : ((b * (a / b) + a % b : Nat) : ℚ) = a := by exact_mod_cast Nat.div_add_mod a b
  push_cast at h
  field_simp
  linarith

theorem roundHalfEven_cases (a b : Nat) (hb : 0 < b) :
    ((roundHalfEven a b : ℚ) = ((a / b : Nat) : ℚ) ∧ ((a % b : Nat) : ℚ) / b < 1 / 2) ∨
    ((roundHalfEven a b : ℚ) = ((a / b : Nat) : ℚ) + 1 ∧ 1 / 2 < ((a % b : Nat) : ℚ) / b) ∨
    (((a % b : Nat) : ℚ) / b = 1 / 2 ∧ roundHalfEven a b % 2 = 0 ∧
      ((roundHalfEven a b : ℚ) = ((a / b : Nat) : ℚ) ∨
        (roundHalfEven a b : ℚ) = ((a / b : Nat) : ℚ) + 1)) := by
  have hb' : (0 : ℚ) < b := by exact_mod_cast hb
  unfold roundHalfEven
  simp only
  split
  · rename_i h
    left
    refine ⟨rfl, ?_⟩
    rw [div_lt_iff₀ hb']
    have : ((2 * (a % b) : Nat) : ℚ) < b := by exact_mod_cast h
    push_cast at this
    linarith
  · rename_i h
    split
    · rename_i h2
      right; left
      refine ⟨by push_cast; rfl, ?_⟩
      rw [lt_div_iff₀ hb']
      have : ((b : Nat) : ℚ) < ((2 * (a % b) : Nat) : ℚ) := by exact_mod_cast h2
      push_cast at this
      linarith
    · rename_i h2
      right; right
      have h3 : 2 * (a % b) = b := by omega
      have h4 : ((a % b : Nat) : ℚ) / b = 1 / 2 := by
        rw [div_eq_iff hb'.ne.symm]
        have : ((2 * (a % b) : Nat) : ℚ) = b := by exact_mod_cast h3
        push_cast at this
        linarith
      refine ⟨h4, ?_⟩
      split
      · rename_i h5
        exact ⟨h5, Or.inl rfl⟩
      · rename_i h5
        exact ⟨by omega, Or.inr (by push_cast; rfl)⟩

theorem roundHalfEven_nearest (a b : Nat) (hb : 0 < b) (k : Int) :
    |(a : ℚ) / b - roundHalfEven a b| ≤ |(a : ℚ) / b - k| := by
  have hb' : (0 : ℚ) < b := by exact_mod_cast hb
  have hf0 : (0 : ℚ) ≤ ((a % b : Nat) : ℚ) / b := by positivity
  have hf1 : ((a % b : Nat) : ℚ) / b < 1 := by
    rw [div_lt_one hb']
    exact_mod_cast Nat.mod_lt a hb
  rw [ratio_div_mod a b hb]
  have hk : (k : ℚ) ≤ ((a / b : Nat) : ℚ) ∨ ((a / b : Nat) : ℚ) + 1 ≤ (k : ℚ) := by
    rcases le_or_lt k ((a / b : Nat) : Int) with h | h
    · left
      have h' : (k : ℚ) ≤ (((a / b : Nat) : Int) : ℚ) := Int.cast_le.2 h
      rwa [Int.cast_natCast] at h'
    · right
      have h' : ((((a / b : Nat) : Int) + 1 : Int) : ℚ) ≤ (k : ℚ) := Int.cast_le.2 h
      rwa [Int.cast_add, Int.cast_natCast, Int.cast_one] at h'
  have hup := le_abs_self (((a / b : Nat) : ℚ) + ((a % b : Nat) : ℚ) / b - k)
  have hdown := neg_le_abs (((a / b : Nat) : ℚ) + ((a % b : Nat) : ℚ) / b - k)
  rcases roundHalfEven_cases a b hb with ⟨h1, h2⟩ | ⟨h1, h2⟩ | ⟨h2, -, h1 | h1⟩ <;>
    rw [h1] <;> rcases hk with hk | hk <;>
    rw [abs_le] <;> constructor <;> linarith

theorem roundHalfEven_half (a b : Nat) (hb : 0 < b) :
    |(a : ℚ) / b - roundHalfEven a b| ≤ 1 / 2 := by
  have hb' : (0 : ℚ) < b := by exact_mod_cast hb
  rw [ratio_div_mod a b hb]
  have hf0 : (0 : ℚ) ≤ ((a % b : Nat) : ℚ) / b := by positivity
  have hf1 : ((a % b : Nat) : ℚ) / b < 1 := by
    rw [div_lt_one hb']
    exact_mod_cast Nat.mod_lt a hb
  rcases roundHalfEven_cases a b hb with ⟨h1, h2⟩ | ⟨h1, h2⟩ | ⟨h2, -, h1 | h1⟩ <;>
    rw [h1, abs_le] <;> constructor <;> linarith

theorem scaled_ratio (n d : Nat) (hd : 0 < d) (e : Int) :
    ((n * 2 ^ (-e).toNat : Nat) : ℚ) / ((d * 2 ^ e.toNat : Nat) : ℚ) =
      (n : ℚ) / d / (2 : ℚ) ^ e := by
  have hd' : (d : ℚ) ≠ 0 := by exact_mod_cast hd.ne.symm
  rw [zpow_two_split e]
  push_cast
  field_simp

theorem toDouble_value (n d : Nat) (hn : 0 < n) (m : Nat) (e : Int)
    (h : toDouble n d = some (m, e)) :
    (m : ℚ) * (2 : ℚ) ^ e =
      (roundHalfEven (n * 2 ^ (-(max (floorLog2Ratio n d - 52) (-1074))).toNat)
        (d * 2 ^ (max (floorLog2Ratio n d - 52) (-1074)).toNat) : ℚ) *
        (2 : ℚ) ^ max (floorLog2Ratio n d - 52) (-1074) := by
  unfold toDouble at h
  simp only [hn.ne.symm, if_false] at h
  split at h
  · rename_i h0
    cases h
    rw [h0]
    simp
  · split at h
    · rename_i h0 h53
      split at h
      · exact absurd h (by simp)
      · cases h
        rw [h53, zpow_add₀ (by norm_num)]
        push_cast
        ring
    · split at h
      · exact absurd h (by simp)
      · cases h
        rfl

theorem toDouble_nearest (n d : Nat) (hn : 0 < n) (hd : 0 < d) (m : Nat) (e : Int)
    (h : toDouble n d = some (m, e)) (m' : Nat) (e' : Int) (hm' : m' < 2 ^ 53)
    (he' : -1074 ≤ e') :
    |(n : ℚ) / d - m * (2 : ℚ) ^ e| ≤ |(n : ℚ) / d - m' * (2 : ℚ) ^ e'| := by
  rw [toDouble_value n d hn m e h]
  obtain ⟨ht1, -⟩ := floorLog2Ratio_spec n d hn hd
  generalize floorLog2Ratio n d = t at ht1 ⊢
  generalize he0 : max (t - 52) (-1074) = e0
  have hb : 0 < d * 2 ^ e0.toNat := Nat.mul_pos hd (by positivity)
  have hpos : (0 : ℚ) < (2 : ℚ) ^ e0 := by positivity
  have hy := scaled_ratio n d hd e0
  generalize hA : n * 2 ^ (-e0).toNat = a at hy ⊢
  generalize hB : d * 2 ^ e0.toNat = b at hy hb ⊢
  have hx : (n : ℚ) / d = (a : ℚ) / b * (2 : ℚ) ^ e0 := by
    rw [hy]; field_simp; ring
  rw [hx] at ht1 ⊢
  have hscale : ∀ k : ℚ, |(a : ℚ) / b * (2 : ℚ) ^ e0 - k * (2 : ℚ) ^ e0| =
      |(a : ℚ) / b - k| * (2 : ℚ) ^ e0 := by
    intro k
    rw [← sub_mul, abs_mul, abs_of_pos hpos]
  rw [hscale]
  rcases le_or_lt e0 e' with hle | hlt
  · -- the other double is a multiple of the unit in the last place
    have hk : (m' : ℚ) * (2 : ℚ) ^ e' =
        (((m' * 2 ^ (e' - e0).toNat : Nat) : Int) : ℚ) * (2 : ℚ) ^ e0 := by
      push_cast
      rw [mul_assoc, ← zpow_natCast, ← zpow_add₀ (by norm_num)]
      congr 2
      omega
    rw [hk, hscale]
    exact mul_le_mul_of_nonneg_right (roundHalfEven_nearest a b hb _) hpos.le
  · -- the other double lies below the binade of the quotient
    have het : e0 = t - 52 := by omega
    have hlow : (m' : ℚ) * (2 : ℚ) ^ e' ≤ (2 : ℚ) ^ t := by
      have h1 : (m' : ℚ) ≤ (2 : ℚ) ^ (53 : Int) := by
        have : (m' : ℚ) < ((2 ^ 53 : Nat) : ℚ) := by exact_mod_cast hm'
        push_cast at this
        rw [zpow_ofNat]
        exact this.le
      calc (m' : ℚ) * (2 : ℚ) ^ e' ≤ (2 : ℚ) ^ (53 : Int) * (2 : ℚ) ^ e' :=
            mul_le_mul_of_nonneg_right h1 (by positivity)
        _ = (2 : ℚ) ^ (53 + e') := by rw [zpow_add₀ (by norm_num)]
        _ ≤ (2 : ℚ) ^ t := zpow_le_zpow_right₀ (by norm_num) (by omega)
    have hK : ((((2 ^ 52 : Nat) : Int)) : ℚ) = (2 : ℚ) ^ (52 : Int) := by norm_num
    have h52 : (2 : ℚ) ^ t = (((2 ^ 52 : Nat) : Int) : ℚ) * (2 : ℚ) ^ e0 := by
      rw [hK, het, ← zpow_add₀ (by norm_num)]
      congr 1
      ring
    have hnear := mul_le_mul_of_nonneg_right
      (roundHalfEven_nearest a b hb ((2 ^ 52 : Nat) : Int)) hpos.le
    refine hnear.trans ?_
    rw [← hscale, ← h52, abs_of_nonneg (by linarith), abs_of_nonneg (by linarith)]
    linarith

theorem toDouble_cases (n d : Nat) (hn : 0 < n) (m : Nat) (e : Int)
    (h : toDouble n d = some (m, e)) :
    (roundHalfEven (n * 2 ^ (-(max (floorLog2Ratio n d - 52) (-1074))).toNat)
        (d * 2 ^ (max (floorLog2Ratio n d - 52) (-1074)).toNat) = 0 ∧ m = 0 ∧ e = 0) ∨
    (roundHalfEven (n * 2 ^ (-(max (floorLog2Ratio n d - 52) (-1074))).toNat)
        (d * 2 ^ (max (floorLog2Ratio n d - 52) (-1074)).toNat) = 2 ^ 53 ∧ m = 2 ^ 52 ∧
      e = max (floorLog2Ratio n d - 52) (-1074) + 1 ∧ e ≤ 971) ∨
    (roundHalfEven (n * 2 ^ (-(max (floorLog2Ratio n d - 52) (-1074))).toNat)
        (d * 2 ^ (max (floorLog2Ratio n d - 52) (-1074)).toNat) = m ∧ m ≠ 0 ∧ m ≠ 2 ^ 53 ∧
      e = max (floorLog2Ratio n d - 52) (-1074) ∧ e ≤ 971) := by
  unfold toDouble at h
  simp only [hn.ne.symm, if_false] at h
  split at h
  · rename_i h0
    cases h
    exact Or.inl ⟨h0, rfl, rfl⟩
  · rename_i h0
    split at h
    · rename_i h53
      split at h
      · exact absurd h (by simp)
      · rename_i hle
        cases h
        exact Or.inr (Or.inl ⟨h53, rfl, rfl, by omega⟩)
    · rename_i h53
      split at h
      · exact absurd h (by simp)
      · rename_i hle
        cases h
        exact Or.inr (Or.inr ⟨rfl, h0, h53, rfl, by omega⟩)

theorem rounded_bounds (n d : Nat) (hn : 0 < n) (hd : 0 < d) :
    roundHalfEven (n * 2 ^ (-(max (floorLog2Ratio n d - 52) (-1074))).toNat)
        (d * 2 ^ (max (floorLog2Ratio n d - 52) (-1074)).toNat) ≤ 2 ^ 53 ∧
    (-1074 ≤ floorLog2Ratio n d - 52 →
      2 ^ 52 ≤ roundHalfEven (n * 2 ^ (-(max (floorLog2Ratio n d - 52) (-1074))).toNat)
        (d * 2 ^ (max (floorLog2Ratio n d - 52) (-1074)).toNat)) := by
  obtain ⟨ht1, ht2⟩ := floorLog2Ratio_spec n d hn hd
  generalize floorLog2Ratio n d = t at ht1 ht2 ⊢
  generalize he0 : max (t - 52) (-1074) = e0
  have hb : 0 < d * 2 ^ e0.toNat := Nat.mul_pos hd (by positivity)
  have hpos : (0 : ℚ) < (2 : ℚ) ^ e0 := by positivity
  have hy := scaled_ratio n d hd e0
  have hhalf := roundHalfEven_half (n * 2 ^ (-e0).toNat) (d * 2 ^ e0.toNat) hb
  have hnear := roundHalfEven_nearest (n * 2 ^ (-e0).toNat) (d * 2 ^ e0.toNat) hb
    ((2 ^ 52 : Nat) : Int)
  generalize roundHalfEven (n * 2 ^ (-e0).toNat) (d * 2 ^ e0.toNat) = m0 at hhalf hnear ⊢
  rw [hy] at hhalf hnear
  have hK : ((((2 ^ 52 : Nat) : Int)) : ℚ) = (2 : ℚ) ^ (52 : Int) := by norm_num
  rw [hK] at hnear
  constructor
  · have hlt : (n : ℚ) / d / (2 : ℚ) ^ e0 < (2 : ℚ) ^ (53 : Int) := by
      rw [div_lt_iff₀ hpos, ← zpow_add₀ (by norm_num)]
      exact lt_of_lt_of_le ht2 (zpow_le_zpow_right₀ (by norm_num) (by omega))
    have h1 : (m0 : ℚ) < (2 : ℚ) ^ (53 : Int) + 1 := by
      have := (abs_le.1 hhalf).1
      linarith
    have h2 : (m0 : ℚ) < ((2 ^ 53 + 1 : Nat) : ℚ) := by
      norm_num at h1 ⊢
      exact h1
    have h3 : m0 < 2 ^ 53 + 1 := by exact_mod_cast h2
    omega
  · intro hnormal
    have het : e0 = t - 52 := by omega
    have hge : (2 : ℚ) ^ (52 : Int) ≤ (n : ℚ) / d / (2 : ℚ) ^ e0 := by
      rw [le_div_iff₀ hpos, ← zpow_add₀ (by norm_num)]
      exact le_trans (zpow_le_zpow_right₀ (by norm_num) (by omega)) ht1
    rw [abs_of_nonneg (a := (n : ℚ) / d / (2 : ℚ) ^ e0 - (2 : ℚ) ^ (52 : Int)) (by linarith)]
      at hnear
    have h1 : (2 : ℚ) ^ (52 : Int) ≤ (m0 : ℚ) := by
      have := (abs_le.1 hnear).2
      linarith
    have h2 : ((2 ^ 52 : Nat) : ℚ) ≤ (m0 : ℚ) := by
      norm_num at h1 ⊢
      exact h1
    exact_mod_cast h2

/-- The result of `toDouble` is a double: a mantissa below `2 ^ 53` with an
exponent from -1074 to 971, the mantissa of full length unless the exponent
is the least one. -/
theorem toDouble_isDouble (n d : Nat) (hn : 0 < n) (hd : 0 < d) (m : Nat) (e : Int)
    (h : toDouble n d = some (m, e)) :
    m < 2 ^ 53 ∧ ((m = 0 ∧ e = 0) ∨
      (0 < m ∧ -1074 ≤ e ∧ e ≤ 971 ∧ (2 ^ 52 ≤ m ∨ e = -1074))) := by
  obtain ⟨hle, hnormal⟩ := rounded_bounds n d hn hd
  rcases toDouble_cases n d hn m e h with ⟨-, h1, h2⟩ | ⟨-, h1, h2, h3⟩ | ⟨h0, h1, h2, h3, h4⟩
  · exact ⟨by omega, Or.inl ⟨h1, h2⟩⟩
  · refine ⟨by omega, Or.inr ⟨by omega, by omega, h3, Or.inl (by omega)⟩⟩
  · rw [h0] at hle hnormal
    refine ⟨by omega, Or.inr ⟨by omega, by omega, h4, ?_⟩⟩
    by_cases hc : -1074 ≤ floorLog2Ratio n d - 52
    · exact Or.inl (hnormal hc)
    · exact Or.inr (by omega)

/-- Only a quotient of at least `2 ^ 1024 - 2 ^ 970` is rounded beyond the
largest double. -/
theorem toDouble_none (n d : Nat) (hd : 0 < d) (h : toDouble n d = none) :
    (2 : ℚ) ^ (1024 : Int) - (2 : ℚ) ^ (970 : Int) ≤ (n : ℚ) / d := by
  have hn : 0 < n := by
    rcases Nat.eq_zero_or_pos n with h0 | h0
    · rw [h0] at h
      exact absurd h (by simp [toDouble])
    · exact h0
  obtain ⟨ht1, -⟩ := floorLog2Ratio_spec n d hn hd
  unfold toDouble at h
  simp only [hn.ne.symm, if_false] at h
  generalize floorLog2Ratio n d = t at ht1 h
  generalize he0 : max (t - 52) (-1074) = e0 at h
  have hb : 0 < d * 2 ^ e0.toNat := Nat.mul_pos hd (by positivity)
  have hpos : (0 : ℚ) < (2 : ℚ) ^ e0 := by positivity
  have hy := scaled_ratio n d hd e0
  have hhalf := roundHalfEven_half (n * 2 ^ (-e0).toNat) (d * 2 ^ e0.toNat) hb
  generalize roundHalfEven (n * 2 ^ (-e0).toNat) (d * 2 ^ e0.toNat) = m0 at hhalf h
  rw [hy] at hhalf
  have hsub : (2 : ℚ) ^ (1024 : Int) - (2 : ℚ) ^ (970 : Int) ≤ (2 : ℚ) ^ (1024 : Int) := by
    have : (0 : ℚ) < (2 : ℚ) ^ (970 : Int) := by positivity
    linarith
  split at h
  · exact absurd h (by simp)
  · split at h
    · rename_i h53
      split at h
      · rename_i hbig
        have h1 : (2 : ℚ) ^ (53 : Int) - 1 / 2 ≤ (n : ℚ) / d / (2 : ℚ) ^ e0 := by
          have := (abs_le.1 hhalf).1
          rw [h53] at this
          norm_num at this ⊢
          linarith
        rw [le_div_iff₀ hpos] at h1
        have h2 : (2 : ℚ) ^ (971 : Int) ≤ (2 : ℚ) ^ e0 :=
          zpow_le_zpow_right₀ (by norm_num) (by omega)
        have h3 : ((2 : ℚ) ^ (53 : Int) - 1 / 2) * (2 : ℚ) ^ (971 : Int) =
            (2 : ℚ) ^ (1024 : Int) - (2 : ℚ) ^ (970 : Int) := by
          rw [sub_mul, ← zpow_add₀ (by norm_num)]
          have : (1 / 2 : ℚ) = (2 : ℚ) ^ (-1 : Int) := by norm_num
          rw [this, ← zpow_add₀ (by norm_num)]
          norm_num
        have h4 : (0 : ℚ) < (2 : ℚ) ^ (53 : Int) - 1 / 2 := by norm_num
        calc (2 : ℚ) ^ (1024 : Int) - (2 : ℚ) ^ (970 : Int)
            = ((2 : ℚ) ^ (53 : Int) - 1 / 2) * (2 : ℚ) ^ (971 : Int) := h3.symm
          _ ≤ ((2 : ℚ) ^ (53 : Int) - 1 / 2) * (2 : ℚ) ^ e0 :=
            mul_le_mul_of_nonneg_left h2 h4.le
          _ ≤ _ := h1
      · exact absurd h (by simp)
    · split at h
      · rename_i hbig
        have het : e0 = t - 52 := by omega
        refine hsub.trans (le_trans ?_ ht1)
        exact zpow_le_zpow_right₀ (by norm_num) (by omega)
      · exact absurd h (by simp)

theorem roundHalfEven_strict_or_even (a b : Nat) (hb : 0 < b) :
    |(a : ℚ) / b - roundHalfEven a b| < 1 / 2 ∨ roundHalfEven a b % 2 = 0 := by
  have hb' : (0 : ℚ) < b := by exact_mod_cast hb
  have hf0 : (0 : ℚ) ≤ ((a % b : Nat) : ℚ) / b := by positivity
  have hf1 : ((a % b : Nat) : ℚ) / b < 1 := by
    rw [div_lt_one hb']
    exact_mod_cast Nat.mod_lt a hb
  rw [ratio_div_mod a b hb]
  rcases roundHalfEven_cases a b hb with ⟨h1, h2⟩ | ⟨h1, h2⟩ | ⟨-, h2, -⟩
  · left
    rw [h1, abs_lt]
    constructor <;> linarith
  · left
    rw [h1, abs_lt]
    constructor <;> linarith
  · exact Or.inr h2

theorem roundHalfEven_tie (a b : Nat) (hb : 0 < b) (k : Int)
    (hk : k ≠ (roundHalfEven a b : Int))
    (h : |(a : ℚ) / b - k| = |(a : ℚ) / b - roundHalfEven a b|) :
    roundHalfEven a b % 2 = 0 := by
  rcases roundHalfEven_strict_or_even a b hb with hlt | heven
  · exfalso
    have h1 : (1 : ℚ) ≤ |(k : ℚ) - (roundHalfEven a b : ℚ)| := by
      have h2 : (1 : Int) ≤ |k - (roundHalfEven a b : Int)| :=
        Int.one_le_abs (sub_ne_zero.2 hk)
      have h3 : ((1 : Int) : ℚ) ≤ ((|k - (roundHalfEven a b : Int)| : Int) : ℚ) :=
        Int.cast_le.2 h2
      rw [Int.cast_abs] at h3
      push_cast at h3
      exact h3
    have h4 : |(k : ℚ) - (roundHalfEven a b : ℚ)| ≤
        |(a : ℚ) / b - k| + |(a : ℚ) / b - roundHalfEven a b| := by
      have := abs_sub_le (k : ℚ) ((a : ℚ) / b) (roundHalfEven a b : ℚ)
      rw [abs_sub_comm (k : ℚ) ((a : ℚ) / b)] at this
      exact this
    rw [h] at h4
    linarith
  · exact heven

/-- Ties go to the even mantissa: when another double is as near to `n / d`
as the result of `toDouble`, the mantissa of the result is even. -/
theorem toDouble_tie_even (n d : Nat) (hn : 0 < n) (hd : 0 < d) (m : Nat) (e : Int)
    (h : toDouble n d = some (m, e)) (m' : Nat) (e' : Int) (hm' : m' < 2 ^ 53)
    (he' : -1074 ≤ e') (hne : (m' : ℚ) * (2 : ℚ) ^ e' ≠ m * (2 : ℚ) ^ e)
    (htie : |(n : ℚ) / d - m' * (2 : ℚ) ^ e'| = |(n : ℚ) / d - m * (2 : ℚ) ^ e|) :
    m % 2 = 0 := by
  have heven : roundHalfEven (n * 2 ^ (-(max (floorLog2Ratio n d - 52) (-1074))).toNat)
      (d * 2 ^ (max (floorLog2Ratio n d - 52) (-1074)).toNat) % 2 = 0 → m % 2 = 0 := by
    intro h0
    rcases toDouble_cases n d hn m e h with ⟨-, h1, -⟩ | ⟨-, h1, -⟩ | ⟨h1, -⟩
    · rw [h1]
    · rw [h1]; rfl
    · rw [← h1]; exact h0
  apply heven
  rw [toDouble_value n d hn m e h] at hne htie
  obtain ⟨ht1, -⟩ := floorLog2Ratio_spec n d hn hd
  generalize floorLog2Ratio n d = t at ht1 hne htie ⊢
  generalize he0 : max (t - 52) (-1074) = e0 at hne htie ⊢
  have hb : 0 < d * 2 ^ e0.toNat := Nat.mul_pos hd (by positivity)
  have hpos : (0 : ℚ) < (2 : ℚ) ^ e0 := by positivity
  have hy := scaled_ratio n d hd e0
  generalize hA : n * 2 ^ (-e0).toNat = a at hy hne htie ⊢
  generalize hB : d * 2 ^ e0.toNat = b at hy hb hne htie ⊢
  have hx : (n : ℚ) / d = (a : ℚ) / b * (2 : ℚ) ^ e0 := by
    rw [hy]; field_simp; ring
  rw [hx] at ht1 htie
  have hscale : ∀ k : ℚ, |(a : ℚ) / b * (2 : ℚ) ^ e0 - k * (2 : ℚ) ^ e0| =
      |(a : ℚ) / b - k| * (2 : ℚ) ^ e0 := by
    intro k
    rw [← sub_mul, abs_mul, abs_of_pos hpos]
  rcases le_or_lt e0 e' with hle | hlt
  · have hk : (m' : ℚ) * (2 : ℚ) ^ e' =
        (((m' * 2 ^ (e' - e0).toNat : Nat) : Int) : ℚ) * (2 : ℚ) ^ e0 := by
      push_cast
      rw [mul_assoc, ← zpow_natCast, ← zpow_add₀ (by norm_num)]
      congr 2
      omega
    rw [hk] at hne htie
    rw [hscale, hscale] at htie
    have htie' := mul_right_cancel₀ hpos.ne.symm htie
    refine roundHalfEven_tie a b hb _ ?_ htie'
    intro hc
    apply hne
    rw [hc]
    push_cast
    rfl
  · exfalso
    have het : e0 = t - 52 := by omega
    have hlow : (m' : ℚ) * (2 : ℚ) ^ e' < (2 : ℚ) ^ t := by
      have h1 : (m' : ℚ) < (2 : ℚ) ^ (53 : Int) := by
        have : (m' : ℚ) < ((2 ^ 53 : Nat) : ℚ) := by exact_mod_cast hm'
        norm_num at this ⊢
        exact this
      calc (m' : ℚ) * (2 : ℚ) ^ e' < (2 : ℚ) ^ (53 : Int) * (2 : ℚ) ^ e' :=
            mul_lt_mul_of_pos_right h1 (by positivity)
        _ = (2 : ℚ) ^ (53 + e') := by rw [zpow_add₀ (by norm_num)]
        _ ≤ (2 : ℚ) ^ t := zpow_le_zpow_right₀ (by norm_num) (by omega)
    have hK : ((((2 ^ 52 : Nat) : Int)) : ℚ) = (2 : ℚ) ^ (52 : Int) := by norm_num
    have h52 : (2 : ℚ) ^ t = (((2 ^ 52 : Nat) : Int) : ℚ) * (2 : ℚ) ^ e0 := by
      rw [hK, het, ← zpow_add₀ (by norm_num)]
      congr 1
      ring
    have hnear := mul_le_mul_of_nonneg_right
      (roundHalfEven_nearest a b hb ((2 ^ 52 : Nat) : Int)) hpos.le
    rw [← hscale, ← hscale, ← h52, ← htie, abs_of_nonneg (by linarith),
      abs_of_nonneg (by linarith)] at hnear
    linarith

/-- The finite Number value for `n / d` is a double, and no double is nearer
to `n / d`. -/
theorem numberValue_nearest (n d : Nat) (hd : 0 < d) (q : ℚ)
    (h : numberValue n d = .finite q) :
    (∃ m : Nat, ∃ e : Int, m < 2 ^ 53 ∧ -1074 ≤ e ∧ e ≤ 971 ∧ q = m * (2 : ℚ) ^ e) ∧
    ∀ (m' : Nat) (e' : Int), m' < 2 ^ 53 → -1074 ≤ e' →
      |(n : ℚ) / d - q| ≤ |(n : ℚ) / d - m' * (2 : ℚ) ^ e'| := by
  unfold numberValue at h
  split at h
  · rename_i m e hm
    have hq : q = (m : ℚ) * (2 : ℚ) ^ e := (JSNumber.finite.inj h).symm
    rcases Nat.eq_zero_or_pos n with h0 | hn
    · have h1 : toDouble n d = some (0, 0) := by rw [h0]; simp [toDouble]
      rw [hm] at h1
      cases h1
      rw [hq, h0]
      refine ⟨⟨0, 0, by norm_num, by norm_num, by norm_num, by simp⟩, ?_⟩
      intro m' e' _ _
      simp only [Nat.cast_zero, zero_div, zero_mul, sub_zero, abs_zero, zero_sub, abs_neg]
      exact abs_nonneg _
    · rw [hq]
      refine ⟨?_, fun m' e' hm' he' => toDouble_nearest n d hn hd m e hm m' e' hm' he'⟩
      rcases toDouble_isDouble n d hn hd m e hm with ⟨h1, ⟨h2, h3⟩ | ⟨-, h3, h4, -⟩⟩
      · exact ⟨0, 0, by norm_num, by norm_num, by norm_num, by rw [h2, h3]⟩
      · exact ⟨m, e, h1, h3, h4, rfl⟩
  · exact JSNumber.noConfusion h

/-- The Number value for `n / d` is `Infinity` only from `2 ^ 1024 - 2 ^ 970`
on, the midpoint between the largest double and `2 ^ 1024`. -/
theorem numberValue_infinity (n d : Nat) (hd : 0 < d) (h : numberValue n d = .infinity) :
    (2 : ℚ) ^ (1024 : Int) - (2 : ℚ) ^ (970 : Int) ≤ (n : ℚ) / d := by
  unfold numberValue at h
  split at h
  · exact JSNumber.noConfusion h
  · rename_i hm
    exact toDouble_none n d hd hm

/-- A quotient that is a double is its own Number value. -/
theorem numberValue_exact (n d : Nat) (hd : 0 < d) (m' : Nat) (e' : Int) (hm' : m' < 2 ^ 53)
    (he' : -1074 ≤ e') (hx : (n : ℚ) / d = m' * (2 : ℚ) ^ e')
    (hlt : (n : ℚ) / d < (2 : ℚ) ^ (1024 : Int) - (2 : ℚ) ^ (970 : Int)) :
    numberValue n d = .finite ((n : ℚ) / d) := by
  cases hv : numberValue n d with
  | infinity => exact absurd (numberValue_infinity n d hd hv) (not_le.2 hlt)
  | finite q =>
    have h := (numberValue_nearest n d hd q hv).2 m' e' hm' he'
    rw [← hx, sub_self, abs_zero] at h
    have h0 : (n : ℚ) / d - q = 0 := abs_eq_zero.1 (le_antisymm h (abs_nonneg _))
    congr 1
    linarith
/-! ### Amount extraction -/

theorem takeWhile_length_spec (p : Char → Bool) (l : List Char) :
    (∀ k, k < (l.takeWhile p).length → ∃ c, l[k]? = some c ∧ p c = true) ∧
    (∀ c, l[(l.takeWhile p).length]? = some c → p c = false) := by
  induction l with
  | nil => simp
  | cons a t ih =>
    by_cases ha : p a = true
    · rw [List.takeWhile_cons_of_pos ha]
      constructor
      · intro k hk
        cases k with
        | zero => exact ⟨a, by simp, ha⟩
        | succ j =>
          have := ih.1 j (by simpa using hk)
          simpa using this
      · intro c hc
        exact ih.2 c (by simpa using hc)
    · rw [List.takeWhile_cons_of_neg ha]
      constructor
      · intro k hk; simp at hk
      · intro c hc
        simp at hc
        subst hc
        simpa using ha

theorem digitRun_lt {s : List Char} {i k : Nat} (h : k < digitRun s i) :
    digitAt s (i + k) = true := by
  obtain ⟨c, hc, hp⟩ := (takeWhile_length_spec Char.isDigit (s.drop i)).1 k h
  rw [List.getElem?_drop] at hc
  simp [digitAt, hc, hp]

theorem digitRun_stop (s : List Char) (i : Nat) : digitAt s (i + digitRun s i) = false := by
  have h := (takeWhile_length_spec Char.isDigit (s.drop i)).2
  unfold digitAt
  cases hc : s[i + digitRun s i]? with
  | none => rfl
  | some c =>
    apply h c
    rw [List.getElem?_drop]
    exact hc

theorem digitRun_ge {s : List Char} {i n : Nat}
    (h : ∀ k, k < n → digitAt s (i + k) = true) : n ≤ digitRun s i := by
  by_contra hlt
  have := h (digitRun s i) (by omega)
  rw [digitRun_stop] at this
  exact Bool.noConfusion this

theorem isWordChar_of_isDigit {c : Char} (h : c.isDigit = true) : isWordChar c = true := by
  simp [isWordChar, Char.isAlphanum, h]

theorem wordAt_of_digitAt {s : List Char} {k : Nat} (h : digitAt s k = true) :
    wordAt s k = true := by
  unfold digitAt at h
  unfold wordAt
  cases hc : s[k]? with
  | none => rw [hc] at h; exact Bool.noConfusion h
  | some c => rw [hc] at h; exact isWordChar_of_isDigit h

theorem not_dollar_of_digitAt {s : List Char} {k : Nat} (h : digitAt s k = true) :
    s[k]? ≠ some '$' := by
  intro hc
  rw [digitAt, hc] at h
  exact absurd h (by decide)

theorem not_dot_of_digitAt {s : List Char} {k : Nat} (h : digitAt s k = true) :
    s[k]? ≠ some '.' := by
  intro hc
  rw [digitAt, hc] at h
  exact absurd h (by decide)

theorem not_boundary_between_digits {s : List Char} {k : Nat}
    (h1 : digitAt s k = true) (h2 : digitAt s (k + 1) = true) :
    wordBoundary s (k + 1) = false := by
  simp [wordBoundary, wordAt_of_digitAt h1, wordAt_of_digitAt h2]

theorem mem_digitsPlus {s : List Char} {b c : Nat} :
    c ∈ digitsPlus s b ↔ b < c ∧ c ≤ b + digitRun s b := by
  simp only [digitsPlus, List.mem_reverse, List.mem_map, List.mem_range]
  constructor
  · rintro ⟨k, hk, rfl⟩; omega
  · rintro ⟨h1, h2⟩; exact ⟨c - b - 1, by omega, by omega⟩

theorem mem_digits12 {s : List Char} {j e : Nat} :
    e ∈ digits12 s j ↔ digitAt s j = true ∧ (e = j + 1 ∨ (e = j + 2 ∧ digitAt s (j + 1) = true)) := by
  unfold digits12
  by_cases h1 : digitAt s j = true
  · by_cases h2 : digitAt s (j + 1) = true
    · simp only [h1, h2, if_true, List.singleton_append, List.mem_cons, List.mem_singleton,
        List.not_mem_nil, or_false, true_and, and_true]
      omega
    · simp [h1, h2]
  · simp [h1]

theorem mem_optFraction {s : List Char} {c d : Nat} :
    d ∈ optFraction s c ↔ d = c ∨ (s[c]? = some '.' ∧ d ∈ digits12 s (c + 1)) := by
  unfold optFraction
  by_cases h : s[c]? = some '.' <;> simp [h, or_comm]

theorem mem_amountPatternAt {s : List Char} {i b e : Nat} :
    (b, e) ∈ amountPatternAt s i ↔
      ((s[i]? = some '$' ∧ b = i + 1) ∨ b = i) ∧ wordBoundary s b = true ∧
      ∃ c, c ∈ digitsPlus s b ∧ e ∈ optFraction s c ∧ wordBoundary s e = true := by
  simp only [amountPatternAt, optDollar, atBoundary, List.mem_flatMap, List.mem_map,
    List.mem_append, List.mem_singleton, Prod.mk.injEq]
  constructor
  · rintro ⟨a, ha, b', hb', c, hc, d, hd, e', he', rfl, rfl⟩
    by_cases hwa : wordBoundary s a = true
    · rw [if_pos hwa, List.mem_singleton] at hb'
      subst hb'
      by_cases hwd : wordBoundary s d = true
      · rw [if_pos hwd, List.mem_singleton] at he'
        subst he'
        refine ⟨?_, hwa, c, hc, hd, hwd⟩
        rcases ha with ha | ha
        · by_cases hs : s[i]? = some '$'
          · rw [if_pos hs, List.mem_singleton] at ha; exact Or.inl ⟨hs, ha⟩
          · rw [if_neg hs] at ha; exact absurd ha (List.not_mem_nil _)
        · exact Or.inr ha
      · rw [if_neg hwd] at he'; exact absurd he' (List.not_mem_nil _)
    · rw [if_neg hwa] at hb'; exact absurd hb' (List.not_mem_nil _)
  · rintro ⟨hb, hwb, c, hc, hd, hwe⟩
    refine ⟨b, ?_, b, by simp [hwb], c, hc, e, hd, e, by simp [hwe], rfl, rfl⟩
    rcases hb with ⟨hs, hb⟩ | hb
    · left; simp [hs, hb]
    · right; exact hb

/-- The index of the first digit of a match that starts at index `i`. -/
theorem captureStart_of_mem {s : List Char} {i b e : Nat} (h : (b, e) ∈ amountPatternAt s i) :
    b = (if s[i]? = some '$' then i + 1 else i) := by
  obtain ⟨hb, -, c, hc, -, -⟩ := mem_amountPatternAt.1 h
  rcases hb with ⟨hs, hb⟩ | hb
  · rw [if_pos hs]; exact hb
  · have hd : digitAt s (b + 0) = true := digitRun_lt (by have := mem_digitsPlus.1 hc; omega)
    rw [Nat.add_zero, hb] at hd
    rw [if_neg (not_dollar_of_digitAt hd)]; exact hb

theorem token_of_mem {s : List Char} {i b e : Nat} (h : (b, e) ∈ amountPatternAt s i) :
    IsAmountToken s i e := by
  obtain ⟨hb, hwb, c, hc, he, hwe⟩ := mem_amountPatternAt.1 h
  obtain ⟨hbc, hcr⟩ := mem_digitsPlus.1 hc
  refine ⟨b, c, ?_, hwb, hbc, ?_, ?_, hwe⟩
  · rcases hb with ⟨hs, hb⟩ | hb
    · exact Or.inr ⟨hs, hb⟩
    · exact Or.inl hb
  · intro k h1 h2
    have := @digitRun_lt s b (k - b) (by omega)
    rwa [show b + (k - b) = k by omega] at this
  · rcases mem_optFraction.1 he with he | ⟨hdot, he⟩
    · exact Or.inl he
    · obtain ⟨hd1, he⟩ := mem_digits12.1 he
      refine Or.inr ⟨hdot, ?_, ?_⟩
      · rcases he with he | ⟨he, -⟩ <;> omega
      · intro k h1 h2
        rcases he with he | ⟨he, hd2⟩
        · have : k = c + 1 := by omega
          rw [this]; exact hd1
        · have : k = c + 1 ∨ k = c + 1 + 1 := by omega
          rcases this with hk | hk <;> rw [hk] <;> assumption

theorem mem_of_token {s : List Char} {i e : Nat} (h : IsAmountToken s i e) :
    ∃ b, (b, e) ∈ amountPatternAt s i := by
  obtain ⟨b, c, hb, hwb, hbc, hdig, hfrac, hwe⟩ := h
  refine ⟨b, mem_amountPatternAt.2 ⟨?_, hwb, c, ?_, ?_, hwe⟩⟩
  · rcases hb with hb | ⟨hs, hb⟩
    · exact Or.inr hb
    · exact Or.inl ⟨hs, hb⟩
  · refine mem_digitsPlus.2 ⟨hbc, ?_⟩
    have : c - b ≤ digitRun s b := digitRun_ge fun k hk => hdig (b + k) (by omega) (by omega)
    omega
  · rcases hfrac with he | ⟨hdot, he, hd⟩
    · exact mem_optFraction.2 (Or.inl he)
    · refine mem_optFraction.2 (Or.inr ⟨hdot, mem_digits12.2 ⟨hd (c + 1) (by omega) (by omega), ?_⟩⟩)
      rcases he with he | he
      · exact Or.inl he
      · exact Or.inr ⟨he, hd (c + 1 + 1) (by omega) (by omega)⟩

theorem digitsPlus_flatMap {α : Type} (s : List Char) (b : Nat) (f : Nat → List α)
    (hf : ∀ c, b < c → c < b + digitRun s b → f c = []) :
    (digitsPlus s b).flatMap f = if digitRun s b = 0 then [] else f (b + digitRun s b) := by
  unfold digitsPlus
  cases hn : digitRun s b with
  | zero => simp
  | succ m =>
    rw [List.range_succ, List.map_append, List.reverse_append]
    simp only [List.map_cons, List.map_nil, List.reverse_cons, List.reverse_nil, List.nil_append,
      List.singleton_append, List.flatMap_cons, Nat.succ_ne_zero, if_false]
    have : (List.map (fun k => b + k + 1) (List.range m)).reverse.flatMap f = [] := by
      rw [List.flatMap_eq_nil_iff]
      intro c hc
      simp only [List.mem_reverse, List.mem_map, List.mem_range] at hc
      obtain ⟨k, hk, rfl⟩ := hc
      exact hf _ (by omega) (by omega)
    rw [this, List.append_nil]
    rfl

/-- A shorter run of digits than the longest one cannot be continued to a
match: the next character is a digit, so it is neither a point nor preceded by
a word boundary. -/
theorem shortRun_fails (s : List Char) (b c : Nat) (h1 : b < c) (h2 : c < b + digitRun s b) :
    ((optFraction s c).flatMap fun d => (atBoundary s d).map fun e => (b, e)) = [] := by
  have hd1 : digitAt s (c - 1) = true := by
    have := @digitRun_lt s b (c - 1 - b) (by omega)
    rwa [show b + (c - 1 - b) = c - 1 by omega] at this
  have hd2 : digitAt s (c - 1 + 1) = true := by
    have := @digitRun_lt s b (c - b) (by omega)
    rwa [show b + (c - b) = c - 1 + 1 by omega] at this
  have hwb := not_boundary_between_digits hd1 hd2
  rw [show c - 1 + 1 = c by omega] at hd2 hwb
  simp [optFraction, not_dot_of_digitAt hd2, atBoundary, hwb]

theorem optFraction_descending (s : List Char) (c : Nat) :
    (optFraction s c).Pairwise fun p q => q ≤ p := by
  unfold optFraction digits12
  split_ifs <;> simp <;> omega

theorem boundary_head_max (s : List Char) (a : Nat) (l : List Nat)
    (hl : l.Pairwise fun p q => q ≤ p) (x : Nat × Nat)
    (hx : (l.flatMap fun d => (atBoundary s d).map fun e => (a, e)).head? = some x) :
    ∀ y ∈ (l.flatMap fun d => (atBoundary s d).map fun e => (a, e)), y.2 ≤ x.2 := by
  induction l with
  | nil => simp
  | cons d t ih =>
    rw [List.pairwise_cons] at hl
    have hsub : ∀ y ∈ (t.flatMap fun d => (atBoundary s d).map fun e => (a, e)), y.2 ≤ d := by
      intro y hy
      simp only [List.mem_flatMap, List.mem_map, atBoundary] at hy
      obtain ⟨d', hd', e, he, rfl⟩ := hy
      by_cases hw : wordBoundary s d' = true
      · rw [if_pos hw, List.mem_singleton] at he
        subst he
        exact hl.1 _ hd'
      · rw [if_neg hw] at he; exact absurd he (List.not_mem_nil _)
    by_cases hw : wordBoundary s d = true
    · simp only [List.flatMap_cons, atBoundary, hw, if_true, List.map_cons, List.map_nil,
        List.singleton_append, List.head?_cons, Option.some.injEq] at hx ⊢
      subst hx
      intro y hy
      rcases List.mem_cons.1 hy with rfl | hy
      · exact le_refl _
      · exact hsub y hy
    · have hnil : (atBoundary s d).map (fun e => (a, e)) = [] := by simp [atBoundary, hw]
      rw [List.flatMap_cons, hnil, List.nil_append] at hx ⊢
      exact ih hl.2 hx

theorem fraction_head_max (s : List Char) (a c : Nat) (x : Nat × Nat)
    (hx : ((optFraction s c).flatMap fun d => (atBoundary s d).map fun e => (a, e)).head? = some x) :
    ∀ y ∈ ((optFraction s c).flatMap fun d => (atBoundary s d).map fun e => (a, e)),
      y.2 ≤ x.2 :=
  boundary_head_max s a _ (optFraction_descending s c) x hx

/-- The matches of the pattern at one start index, as the engine orders them:
only the longest run of digits can be continued to a match. -/
theorem amountPatternAt_eq (s : List Char) (i : Nat) :
    amountPatternAt s i = [] ∨ ∃ a c, amountPatternAt s i =
      (optFraction s c).flatMap fun d => (atBoundary s d).map fun e => (a, e) := by
  have body : ∀ a, ((atBoundary s a).flatMap fun b => (digitsPlus s b).flatMap fun c =>
      (optFraction s c).flatMap fun d => (atBoundary s d).map fun e => (b, e)) = [] ∨
      ((atBoundary s a).flatMap fun b => (digitsPlus s b).flatMap fun c =>
      (optFraction s c).flatMap fun d => (atBoundary s d).map fun e => (b, e)) =
        (optFraction s (a + digitRun s a)).flatMap fun d =>
          (atBoundary s d).map fun e => (a, e) := by
    intro a
    by_cases hw : wordBoundary s a = true
    · have hab : atBoundary s a = [a] := by simp [atBoundary, hw]
      rw [hab]
      simp only [List.flatMap_cons, List.flatMap_nil, List.append_nil]
      rw [digitsPlus_flatMap s a _ (shortRun_fails s a)]
      by_cases hn : digitRun s a = 0
      · left; rw [if_pos hn]
      · right; rw [if_neg hn]
    · left
      have hab : atBoundary s a = [] := by simp [atBoundary, hw]
      rw [hab]; rfl
  unfold amountPatternAt optDollar
  by_cases hs : s[i]? = some '$'
  · have hrun : digitRun s i = 0 := by
      by_contra hne
      have hd : digitAt s (i + 0) = true := digitRun_lt (by omega)
      exact not_dollar_of_digitAt hd hs
    have hnil : ((atBoundary s i).flatMap fun b => (digitsPlus s b).flatMap fun c =>
        (optFraction s c).flatMap fun d => (atBoundary s d).map fun e => (b, e)) = [] := by
      rw [List.flatMap_eq_nil_iff]
      intro b hb
      have : digitsPlus s i = [] := by simp [digitsPlus, hrun]
      by_cases hw : wordBoundary s i = true
      · simp only [atBoundary, hw, if_true, List.mem_singleton] at hb
        subst hb; rw [this]; rfl
      · simp [atBoundary, hw] at hb
    simp only [hs, if_true, List.singleton_append, List.flatMap_cons, List.flatMap_nil,
      List.append_nil, hnil]
    rcases body (i + 1) with h | h
    · left; exact h
    · right; exact ⟨_, _, h⟩
  · simp only [hs, if_false, List.nil_append, List.flatMap_cons, List.flatMap_nil,
      List.append_nil]
    rcases body i with h | h
    · left; exact h
    · right; exact ⟨_, _, h⟩

theorem amountPatternAt_head_max {s : List Char} {i : Nat} {x : Nat × Nat}
    (hx : (amountPatternAt s i).head? = some x) :
    ∀ y ∈ amountPatternAt s i, y.2 ≤ x.2 := by
  rcases amountPatternAt_eq s i with h | ⟨a, c, h⟩
  · rw [h] at hx; simp at hx
  · rw [h] at hx ⊢
    exact fraction_head_max s a c x hx

theorem findSome?_range {β : Type} (f : Nat → Option β) (r : β) :
    ∀ n, (List.range n).findSome? f = some r →
      ∃ i, i < n ∧ f i = some r ∧ ∀ j, j < i → f j = none := by
  intro n
  induction n with
  | zero => simp
  | succ n ih =>
    rw [List.range_succ, List.findSome?_append]
    cases h : (List.range n).findSome? f with
    | some r' =>
      intro hr
      simp only [Option.or_some, Option.some.injEq] at hr
      subst hr
      obtain ⟨i, hi, hfi, hlt⟩ := ih h
      exact ⟨i, by omega, hfi, hlt⟩
    | none =>
      intro hr
      rw [List.findSome?_eq_none_iff] at h
      refine ⟨n, by omega, ?_, fun j hj => h j (List.mem_range.2 hj)⟩
      simp only [Option.none_or] at hr
      cases hfn : f n with
      | none => simp [List.findSome?, hfn] at hr
      | some v => simpa [List.findSome?, hfn] using hr

/-- What a match reported by `amountMatch` is: a token at the least index at
which a token starts, and the longest of the tokens that start there. -/
theorem amountMatch_some {s : List Char} {b e : Nat} (h : amountMatch s = some (b, e)) :
    ∃ i, IsAmountToken s i e ∧ b = (if s[i]? = some '$' then i + 1 else i) ∧
      ∀ i' e', IsAmountToken s i' e' → i < i' ∨ (i = i' ∧ e' ≤ e) := by
  obtain ⟨i, -, hi, hlt⟩ := findSome?_range _ _ _ h
  have hmem : (b, e) ∈ amountPatternAt s i := List.mem_of_mem_head? hi
  refine ⟨i, token_of_mem hmem, captureStart_of_mem hmem, ?_⟩
  intro i' e' ht
  obtain ⟨b', hb'⟩ := mem_of_token ht
  rcases Nat.lt_trichotomy i i' with hlt' | heq | hgt
  · exact Or.inl hlt'
  · subst heq
    exact Or.inr ⟨rfl, amountPatternAt_head_max hi _ hb'⟩
  · have := hlt i' hgt
    rw [List.head?_eq_none_iff] at this
    rw [this] at hb'
    exact absurd hb' (List.not_mem_nil _)

theorem token_start_lt_length {s : List Char} {i e : Nat} (h : IsAmountToken s i e) :
    i < s.length := by
  obtain ⟨b, c, hb, -, hbc, hdig, -, -⟩ := h
  have hd := hdig b (le_refl _) hbc
  have hb' : b < s.length := by
    by_contra hge
    rw [digitAt, List.getElem?_eq_none (by omega)] at hd
    exact Bool.noConfusion hd
  rcases hb with hb | ⟨-, hb⟩ <;> omega

theorem amountMatch_none {s : List Char} (h : ∀ i e, ¬ IsAmountToken s i e) :
    amountMatch s = none := by
  unfold amountMatch
  rw [List.findSome?_eq_none_iff]
  intro i _
  rw [List.head?_eq_none_iff]
  cases hl : amountPatternAt s i with
  | nil => rfl
  | cons x t =>
    have hx : (x.1, x.2) ∈ amountPatternAt s i := by rw [hl]; exact List.mem_cons_self _ _
    exact absurd (token_of_mem hx) (h i x.2)

theorem amountMatch_isSome {s : List Char} {i e : Nat} (h : IsAmountToken s i e) :
    ∃ r, amountMatch s = some r := by
  cases hm : amountMatch s with
  | some r => exact ⟨r, rfl⟩
  | none =>
    unfold amountMatch at hm
    rw [List.findSome?_eq_none_iff] at hm
    have := hm i (List.mem_range.2 (by have := token_start_lt_length h; omega))
    rw [List.head?_eq_none_iff] at this
    obtain ⟨b, hb⟩ := mem_of_token h
    rw [this] at hb
    exact absurd hb (List.not_mem_nil _)

theorem mem_slice {s : List Char} {b e : Nat} {c : Char} (h : c ∈ slice s b e) :
    ∃ k, b ≤ k ∧ k < e ∧ s[k]? = some c := by
  unfold slice at h
  obtain ⟨n, hn⟩ := List.mem_iff_getElem?.1 h
  rw [List.getElem?_take] at hn
  split at hn
  · rw [List.getElem?_drop] at hn
    exact ⟨b + n, by omega, by omega, hn⟩
  · exact Option.noConfusion hn

theorem captured_chars {s : List Char} {i b e : Nat} (h : (b, e) ∈ amountPatternAt s i) :
    ∀ k, b ≤ k → k < e → digitAt s k = true ∨ s[k]? = some '.' := by
  obtain ⟨-, -, c, hc, he, -⟩ := mem_amountPatternAt.1 h
  obtain ⟨hbc, hcr⟩ := mem_digitsPlus.1 hc
  intro k h1 h2
  by_cases hk : k < c
  · left
    have := @digitRun_lt s b (k - b) (by omega)
    rwa [show b + (k - b) = k by omega] at this
  · rcases mem_optFraction.1 he with he | ⟨hdot, he⟩
    · omega
    · obtain ⟨hd1, he⟩ := mem_digits12.1 he
      by_cases hkc : k = c
      · right; rw [hkc]; exact hdot
      · left
        rcases he with he | ⟨he, hd2⟩
        · rw [show k = c + 1 by omega]; exact hd1
        · have : k = c + 1 ∨ k = c + 1 + 1 := by omega
          rcases this with hk' | hk' <;> rw [hk'] <;> assumption

theorem slice_self (s : List Char) (c : Nat) : slice s c c = [] := by
  simp [slice]

theorem slice_append (s : List Char) {b c e : Nat} (h1 : b ≤ c) (h2 : c ≤ e) :
    slice s b e = slice s b c ++ slice s c e := by
  unfold slice
  have hd : s.drop c = (s.drop b).drop (c - b) := by
    rw [List.drop_drop]
    congr 1
    omega
  rw [hd, show e - b = (c - b) + (e - c) by omega, List.take_add]

theorem slice_cons {s : List Char} {c e : Nat} {x : Char} (h : s[c]? = some x) (hce : c < e) :
    slice s c e = x :: slice s (c + 1) e := by
  unfold slice
  have hc : c < s.length := by
    by_contra hge
    rw [List.getElem?_eq_none (by omega)] at h
    exact Option.noConfusion h
  have hx : s[c] = x := by
    rw [List.getElem?_eq_getElem hc] at h
    exact Option.some.inj h
  rw [List.drop_eq_getElem_cons hc, hx, show e - c = (e - (c + 1)) + 1 by omega, List.take_succ_cons]

theorem slice_all_digits {s : List Char} {b c : Nat}
    (h : ∀ k, b ≤ k → k < c → digitAt s k = true) :
    ∀ x ∈ slice s b c, x.isDigit = true := by
  intro x hx
  obtain ⟨k, h1, h2, hk⟩ := mem_slice hx
  have := h k h1 h2
  rw [digitAt, hk] at this
  exact this

theorem takeWhile_digits_append (ds rest : List Char) (h : ∀ x ∈ ds, x.isDigit = true)
    (hrest : ∀ x, rest.head? = some x → x.isDigit = false) :
    (ds ++ rest).takeWhile Char.isDigit = ds ∧ (ds ++ rest).dropWhile Char.isDigit = rest := by
  induction ds with
  | nil =>
    cases rest with
    | nil => simp
    | cons x t =>
      have hx := hrest x rfl
      simp [List.takeWhile_cons, List.dropWhile_cons, hx]
  | cons d t ih =>
    have hd := h d (List.mem_cons_self _ _)
    have ht := ih fun x hx => h x (List.mem_cons_of_mem _ hx)
    simp [List.takeWhile_cons, List.dropWhile_cons, hd, ht.1, ht.2]

theorem foldl_digits (l : List Char) :
    ∀ acc : Nat, l.foldl (fun n c => 10 * n + digitValue c) acc =
      acc * 10 ^ l.length + Nat.ofDigits 10 (l.map digitValue).reverse := by
  induction l with
  | nil => intro acc; simp
  | cons c t ih =>
    intro acc
    rw [List.foldl_cons, ih, List.map_cons, List.reverse_cons, Nat.ofDigits_append,
      Nat.ofDigits_singleton, List.length_reverse, List.length_map, List.length_cons, pow_succ]
    ring

theorem natOfDigits_eq (l : List Char) :
    natOfDigits l = Nat.ofDigits 10 (l.map digitValue).reverse := by
  unfold natOfDigits
  rw [foldl_digits]
  simp

theorem filter_digits_of_all (ds : List Char) (h : ∀ x ∈ ds, x.isDigit = true) :
    ds.filter Char.isDigit = ds :=
  List.filter_eq_self.2 h

theorem dropWhile_point_of_digits (ds rest : List Char) (h : ∀ x ∈ ds, x.isDigit = true) :
    (ds ++ '.' :: rest).dropWhile (fun c => c != '.') = '.' :: rest ∧
    ds.dropWhile (fun c => c != '.') = [] := by
  induction ds with
  | nil => simp [List.dropWhile_cons]
  | cons d t ih =>
    have hd := h d (List.mem_cons_self _ _)
    have hne : (d != '.') = true := by
      rw [bne_iff_ne]
      rintro rfl
      exact absurd hd (by decide)
    have ht := ih fun x hx => h x (List.mem_cons_of_mem _ hx)
    simp only [List.cons_append, List.dropWhile_cons, hne, if_true]
    exact ht

/-- On a text of digits the model of `parseFloat` returns the Number value
for the positional value of the digits. -/
theorem parseFloat_digits (ds : List Char) (h : ∀ x ∈ ds, x.isDigit = true) :
    parseFloat ds =
      numberValue (Nat.ofDigits 10 (decimalDigits ds).reverse) (10 ^ fractionLength ds) := by
  have h1 := takeWhile_digits_append ds [] h (fun x hx => by simp at hx)
  rw [List.append_nil] at h1
  unfold parseFloat decimalDigits fractionLength
  rw [h1.1, h1.2, (dropWhile_point_of_digits ds [] h).2, filter_digits_of_all ds h]
  simp [natOfDigits_eq]

/-- On a text of digits, a point and digits the model of `parseFloat` returns
the Number value for the decimal the text denotes. -/
theorem parseFloat_fraction (ds fr : List Char) (h : ∀ x ∈ ds, x.isDigit = true)
    (hf : ∀ x ∈ fr, x.isDigit = true) :
    parseFloat (ds ++ '.' :: fr) =
      numberValue (Nat.ofDigits 10 (decimalDigits (ds ++ '.' :: fr)).reverse)
        (10 ^ fractionLength (ds ++ '.' :: fr)) := by
  have h1 := takeWhile_digits_append ds ('.' :: fr) h
    (fun x hx => by simp at hx; subst hx; decide)
  have h2 := takeWhile_digits_append fr [] hf (fun x hx => by simp at hx)
  rw [List.append_nil] at h2
  have hfilter : (ds ++ '.' :: fr).filter Char.isDigit = ds ++ fr := by
    rw [List.filter_append, List.filter_cons, filter_digits_of_all ds h,
      filter_digits_of_all fr hf]
    simp
  unfold parseFloat decimalDigits fractionLength
  rw [h1.1, h1.2, (dropWhile_point_of_digits ds fr h).1, hfilter]
  simp only [h2.1, List.drop_succ_cons, List.drop_zero, List.map_append, List.reverse_append,
    Nat.ofDigits_append, List.length_reverse, List.length_map, natOfDigits_eq]
  congr 1
  ring

/-- The amount parsed from a match is the numeric value of the matched
token. -/
theorem parseFloat_of_mem {s : List Char} {i b e : Nat} (h : (b, e) ∈ amountPatternAt s i) :
    parseFloat (slice s b e) =
      numberValue (Nat.ofDigits 10 (decimalDigits (slice s b e)).reverse)
        (10 ^ fractionLength (slice s b e)) := by
  obtain ⟨-, -, c, hc, he, -⟩ := mem_amountPatternAt.1 h
  obtain ⟨hbc, hcr⟩ := mem_digitsPlus.1 hc
  have hdig : ∀ k, b ≤ k → k < c → digitAt s k = true := by
    intro k h1 h2
    have := @digitRun_lt s b (k - b) (by omega)
    rwa [show b + (k - b) = k by omega] at this
  rcases mem_optFraction.1 he with he | ⟨hdot, he⟩
  · subst he
    exact parseFloat_digits _ (slice_all_digits hdig)
  · obtain ⟨hd1, he⟩ := mem_digits12.1 he
    have hce : c < e := by rcases he with he | ⟨he, -⟩ <;> omega
    have hfr : ∀ k, c + 1 ≤ k → k < e → digitAt s k = true := by
      intro k h1 h2
      rcases he with he | ⟨he, hd2⟩
      · rw [show k = c + 1 by omega]; exact hd1
      · have : k = c + 1 ∨ k = c + 1 + 1 := by omega
        rcases this with hk | hk <;> rw [hk] <;> assumption
    rw [slice_append s (Nat.le_of_lt hbc) (Nat.le_of_lt hce), slice_cons hdot hce]
    exact parseFloat_fraction _ _ (slice_all_digits hdig) (slice_all_digits hfr)

theorem numberValue_of_double {n d m : Nat} {e : Int} (h : toDouble n d = some (m, e)) :
    numberValue n d = .finite ((m : ℚ) * (2 : ℚ) ^ e) := by
  unfold numberValue
  rw [h]

theorem extractAmount_longToken :
    extractAmount "12345678901234567890" = .finite 12345678901234567168 := by
  have h : amountMatch "12345678901234567890".toList = some (0, 20) := by decide
  have h2 : slice "12345678901234567890".toList 0 20 = "12345678901234567890".toList := by
    decide
  have h3 : parseFloat "12345678901234567890".toList = numberValue 12345678901234567890 1 :=
    rfl
  have h4 : toDouble 12345678901234567890 1 = some (6028163525993441, 11) := by decide!
  simp only [extractAmount, h, h2, h3, numberValue_of_double h4]
  congr 1
  norm_num

theorem extractAmount_lunch : extractAmount "lunch 15.50" = .finite 15.50 := by
  have h : amountMatch "lunch 15.50".toList = some (6, 11) := by decide
  have h2 : slice "lunch 15.50".toList 6 11 = ['1', '5', '.', '5', '0'] := by decide
  have h3 : parseFloat ['1', '5', '.', '5', '0'] = numberValue 1550 100 := rfl
  have h4 : toDouble 1550 100 = some (8725724278030336, -49) := by decide!
  simp only [extractAmount, h, h2, h3, numberValue_of_double h4]
  congr 1
  norm_num

/-- C2, against the claim: the description `"12345678901234567890"` is one
token, of numeric value 12345678901234567890; the amount extracted from it is
another number, 12345678901234567168, the double nearest to that value (the
request body written from it reads 12345678901234567000). -/
theorem extractAmount_rounds_long_token :
    IsAmountToken "12345678901234567890".toList 0 20 ∧
    tokenDecimal "12345678901234567890".toList 0 20 = 12345678901234567890 ∧
    extractAmount "12345678901234567890" = .finite 12345678901234567168 ∧
    extractAmount "12345678901234567890" ≠ .finite 12345678901234567890 ∧
    numberText 12345678901234567168 0 = "12345678901234567000" := by
  refine ⟨token_of_mem (b := 0) (by decide), ?_, extractAmount_longToken, ?_, by decide!⟩
  · have h0 : tokenDecimal "12345678901234567890".toList 0 20 =
        ((Nat.ofDigits 10 (decimalDigits (slice "12345678901234567890".toList
          (if "12345678901234567890".toList[0]? = some '$' then 0 + 1 else 0) 20)).reverse :
            Nat) : ℚ) /
          ((10 ^ fractionLength (slice "12345678901234567890".toList
            (if "12345678901234567890".toList[0]? = some '$' then 0 + 1 else 0) 20) : Nat) :
              ℚ) := by
      unfold tokenDecimal
      push_cast
      rfl
    have h1 : Nat.ofDigits 10 (decimalDigits (slice "12345678901234567890".toList
        (if "12345678901234567890".toList[0]? = some '$' then 0 + 1 else 0) 20)).reverse =
        12345678901234567890 := by decide!
    have h2 : fractionLength (slice "12345678901234567890".toList
        (if "12345678901234567890".toList[0]? = some '$' then 0 + 1 else 0) 20) = 0 := by
      decide
    rw [h0, h1, h2]
    norm_num
  · rw [extractAmount_longToken]
    intro h
    have := JSNumber.finite.inj h
    norm_num at this

/-- C2, as amended: the amount `handleQuickEntry` extracts from a description
is 0 when the description holds no amount token, and otherwise the JavaScript
number for the token that starts leftmost (the longest one of those starting
there): an optional dollar sign, digits and an optional fraction of one or
two digits between word boundaries.  That number is the Number value for the
decimal the digits of the token denote: a double, than which no double is
nearer to the decimal, and `Infinity` only for a decimal of at least
`2 ^ 1024 - 2 ^ 970`.  The first match wins: `"lunch 15.50"` gives 15.50, `"$50 office supplies"` gives 50,
`"no numbers here"` gives 0 and `"order 1200 items at 3"` gives 1200; a token
whose decimal is no double gives the nearest one, as
`"12345678901234567890"` and `"tip 0.1"` show. -/
theorem extractAmount_leftmost_token (desc : String) :
    ((∀ i e, ¬ IsAmountToken desc.toList i e) → extractAmount desc = .finite 0) ∧
    ((∃ i e, IsAmountToken desc.toList i e) →
      ∃ i e, IsAmountToken desc.toList i e ∧
        (∀ i' e', IsAmountToken desc.toList i' e' → i < i' ∨ (i = i' ∧ e' ≤ e)) ∧
        extractAmount desc = tokenValue desc.toList i e ∧
        (extractAmount desc = .infinity →
          (2 : ℚ) ^ (1024 : Int) - (2 : ℚ) ^ (970 : Int) ≤ tokenDecimal desc.toList i e) ∧
        (∀ q, extractAmount desc = .finite q →
          (∃ m : Nat, ∃ k : Int, m < 2 ^ 53 ∧ -1074 ≤ k ∧ k ≤ 971 ∧ q = m * (2 : ℚ) ^ k) ∧
          ∀ (m' : Nat) (k' : Int), m' < 2 ^ 53 → -1074 ≤ k' →
            |tokenDecimal desc.toList i e - q| ≤
              |tokenDecimal desc.toList i e - m' * (2 : ℚ) ^ k'|)) ∧
    extractAmount "lunch 15.50" = .finite 15.50 ∧
    extractAmount "$50 office supplies" = .finite 50 ∧
    extractAmount "no numbers here" = .finite 0 ∧
    extractAmount "order 1200 items at 3" = .finite 1200 ∧
    extractAmount "12345678901234567890" = .finite 12345678901234567168 ∧
    extractAmount "tip 0.1" = .finite (3602879701896397 / 36028797018963968) := by
  refine ⟨?_, ?_, ?_, ?_, ?_, ?_, ?_, ?_⟩
  · intro h
    unfold extractAmount
    rw [amountMatch_none h]
  · rintro ⟨i0, e0, h0⟩
    obtain ⟨⟨b, e⟩, hm⟩ := amountMatch_isSome h0
    obtain ⟨i, ht, hb, hmin⟩ := amountMatch_some hm
    obtain ⟨j, -, hj, -⟩ := findSome?_range _ _ _ hm
    have hval : extractAmount desc = tokenValue desc.toList i e := by
      unfold extractAmount tokenValue
      rw [hm]
      simp only [← hb]
      exact parseFloat_of_mem (List.mem_of_mem_head? hj)
    have hdec : ∀ text : List Char,
        (Nat.ofDigits 10 (decimalDigits text).reverse : ℚ) / (10 : ℚ) ^ fractionLength text =
          ((Nat.ofDigits 10 (decimalDigits text).reverse : Nat) : ℚ) /
            ((10 ^ fractionLength text : Nat) : ℚ) := by
      intro text
      push_cast
      rfl
    refine ⟨i, e, ht, hmin, hval, ?_, ?_⟩
    · intro hinf
      rw [hval] at hinf
      unfold tokenDecimal
      simp only
      rw [hdec]
      exact numberValue_infinity _ _ (by positivity) hinf
    · intro q hq
      rw [hval] at hq
      unfold tokenDecimal
      simp only
      rw [hdec]
      exact numberValue_nearest _ _ (by positivity) q hq
  · exact extractAmount_lunch
  · have h : amountMatch "$50 office supplies".toList = some (1, 3) := by decide
    have h2 : slice "$50 office supplies".toList 1 3 = ['5', '0'] := by decide
    have h3 : parseFloat ['5', '0'] = numberValue 50 1 := rfl
    have h4 : toDouble 50 1 = some (7036874417766400, -47) := by decide!
    simp only [extractAmount, h, h2, h3, numberValue_of_double h4]
    congr 1
    norm_num
  · have h : amountMatch "no numbers here".toList = none := by decide
    simp only [extractAmount, h]
  · have h : amountMatch "order 1200 items at 3".toList = some (6, 10) := by decide
    have h2 : slice "order 1200 items at 3".toList 6 10 = ['1', '2', '0', '0'] := by decide
    have h3 : parseFloat ['1', '2', '0', '0'] = numberValue 1200 1 := rfl
    have h4 : toDouble 1200 1 = some (5277655813324800, -42) := by decide!
    simp only [extractAmount, h, h2, h3, numberValue_of_double h4]
    congr 1
    norm_num
  · exact extractAmount_longToken
  · have h : amountMatch "tip 0.1".toList = some (4, 7) := by decide
    have h2 : slice "tip 0.1".toList 4 7 = ['0', '.', '1'] := by decide
    have h3 : parseFloat ['0', '.', '1'] = numberValue 1 10 := rfl
    have h4 : toDouble 1 10 = some (7205759403792794, -56) := by decide!
    simp only [extractAmount, h, h2, h3, numberValue_of_double h4]
    congr 1
    norm_num

theorem extractAmount_leftmost_token_witness :
    extractAmount "no numbers here" = .finite 0 ∧
    ∃ i e, IsAmountToken "order 1200 items at 3".toList i e ∧
      (∀ i' e', IsAmountToken "order 1200 items at 3".toList i' e' →
        i < i' ∨ (i = i' ∧ e' ≤ e)) ∧
      extractAmount "order 1200 items at 3" =
        tokenValue "order 1200 items at 3".toList i e ∧
      (extractAmount "order 1200 items at 3" = .infinity →
        (2 : ℚ) ^ (1024 : Int) - (2 : ℚ) ^ (970 : Int) ≤
          tokenDecimal "order 1200 items at 3".toList i e) ∧
      (∀ q, extractAmount "order 1200 items at 3" = .finite q →
        (∃ m : Nat, ∃ k : Int, m < 2 ^ 53 ∧ -1074 ≤ k ∧ k ≤ 971 ∧ q = m * (2 : ℚ) ^ k) ∧
        ∀ (m' : Nat) (k' : Int), m' < 2 ^ 53 → -1074 ≤ k' →
          |tokenDecimal "order 1200 items at 3".toList i e - q| ≤
            |tokenDecimal "order 1200 items at 3".toList i e - m' * (2 : ℚ) ^ k'|) :=
  ⟨(extractAmount_leftmost_token "no numbers here").1 (fun i e h => by
      obtain ⟨r, hr⟩ := amountMatch_isSome h
      have hnone : amountMatch "no numbers here".toList = none := by decide
      rw [hnone] at hr
      exact Option.noConfusion hr),
   (extractAmount_leftmost_token "order 1200 items at 3").2.1
      ⟨6, 10, token_of_mem (b := 6) (by decide)⟩⟩

/-! ### Review actions -/

theorem dropWhile_head_not (p : Char → Bool) (l : List Char) (h : l.dropWhile p ≠ []) :
    ∃ a t, l.dropWhile p = a :: t ∧ p a = false := by
  induction l with
  | nil => exact absurd rfl h
  | cons a t ih =>
    by_cases ha : p a = true
    · rw [List.dropWhile_cons_of_pos ha] at h ⊢
      exact ih h
    · rw [List.dropWhile_cons_of_neg ha]
      exact ⟨a, t, rfl, by simpa using ha⟩

/-- `trim` leaves the empty string exactly when every character is white
space. -/
theorem jsTrim_eq_empty_iff (s : String) :
    jsTrim s = "" ↔ ∀ c ∈ s.toList, isJSWhiteSpace c = true := by
  unfold jsTrim
  constructor
  · intro h
    have h1 : ((s.toList.dropWhile isJSWhiteSpace).reverse.dropWhile isJSWhiteSpace).reverse
        = [] := by
      have := congrArg String.toList h
      simpa using this
    rw [List.reverse_eq_nil_iff] at h1
    by_contra hne
    have h2 : s.toList.dropWhile isJSWhiteSpace ≠ [] := by
      intro h3
      exact hne (List.dropWhile_eq_nil_iff.1 h3)
    obtain ⟨a, t, hat, ha⟩ := dropWhile_head_not _ _ h2
    have h4 := List.dropWhile_eq_nil_iff.1 h1 a (by rw [hat]; simp)
    rw [ha] at h4
    exact Bool.noConfusion h4
  · intro h
    rw [List.dropWhile_eq_nil_iff.2 h]
    rfl

/-- C5: for every prediction id that has a string form (the ids of the two
inputs are built from it), when the corrected-GL field holds nothing but white
space `rejectReview` performs exactly one effect, the warning notification: it
sends no request and does not remove the review card.  A request is sent
exactly when the field holds some other character, and it is then the reject
request for the prediction, carrying the trimmed code.  For an id without a
string form the function throws before any effect; so for every id, no request
is sent while the field holds nothing but white space. -/
theorem rejectReview_requires_gl_code (eng : Engine) (predictionId : JSValue)
    (corrGL corrReason : String) (o : FetchOutcome) :
    (∀ idText, predictionId.toStr = some idText →
      ((∀ c ∈ corrGL.toList, isJSWhiteSpace c = true) →
        rejectReview eng predictionId corrGL corrReason o =
          ⟨[.toast "Please enter the corrected GL code" .warning], none⟩) ∧
      ((∃ x ∈ (rejectReview eng predictionId corrGL corrReason o).effects, x.isFetch = true) ↔
        ∃ c ∈ corrGL.toList, isJSWhiteSpace c = false) ∧
      ((∃ c ∈ corrGL.toList, isJSWhiteSpace c = false) →
        (rejectReview eng predictionId corrGL corrReason o).effects.head? =
          some (.fetch ("/reviews/" ++ idText ++ "/reject")
            ⟨"POST", true, .json (.obj
              [ ("corrected_gl_code", .str (jsTrim corrGL)),
                ("reason",
                  if jsTrim corrReason ≠ "" then .str (jsTrim corrReason) else .null),
                ("corrected_by", .str "analyst") ])⟩))) ∧
    (predictionId.toStr = none →
      rejectReview eng predictionId corrGL corrReason o =
        ⟨[], some ⟨eng.toPrimitiveMessage⟩⟩) ∧
    ((∀ c ∈ corrGL.toList, isJSWhiteSpace c = true) →
      ∀ x ∈ (rejectReview eng predictionId corrGL corrReason o).effects,
        x.isFetch = false) := by
  have hthrow : predictionId.toStr = none →
      rejectReview eng predictionId corrGL corrReason o =
        ⟨[], some ⟨eng.toPrimitiveMessage⟩⟩ := by
    intro h
    unfold rejectReview
    simp only [h]
  have hempty : ∀ idText, predictionId.toStr = some idText →
      (∀ c ∈ corrGL.toList, isJSWhiteSpace c = true) →
      rejectReview eng predictionId corrGL corrReason o =
        ⟨[.toast "Please enter the corrected GL code" .warning], none⟩ := by
    intro idText hid h
    unfold rejectReview
    simp only [hid, (jsTrim_eq_empty_iff corrGL).2 h, if_true]
  have hsent : ∀ idText, predictionId.toStr = some idText →
      (∃ c ∈ corrGL.toList, isJSWhiteSpace c = false) →
      (rejectReview eng predictionId corrGL corrReason o).effects.head? =
        some (.fetch ("/reviews/" ++ idText ++ "/reject")
          ⟨"POST", true, .json (.obj
            [ ("corrected_gl_code", .str (jsTrim corrGL)),
              ("reason",
                if jsTrim corrReason ≠ "" then .str (jsTrim corrReason) else .null),
              ("corrected_by", .str "analyst") ])⟩) := by
    rintro idText hid ⟨c, hc, hws⟩
    have hne : ¬ jsTrim corrGL = "" := by
      intro h
      have := (jsTrim_eq_empty_iff corrGL).1 h c hc
      rw [hws] at this
      exact Bool.noConfusion this
    unfold rejectReview
    simp only [hid, hne, if_false, apiFetch]
    cases apiFetchTry eng o <;> rfl
  refine ⟨fun idText hid => ⟨hempty idText hid, ⟨?_, ?_⟩, hsent idText hid⟩, hthrow, ?_⟩
  · rintro ⟨x, hx, hfx⟩
    by_contra hnone
    have hall : ∀ c ∈ corrGL.toList, isJSWhiteSpace c = true := by
      intro c hc
      by_contra hc'
      exact hnone ⟨c, hc, by simpa using hc'⟩
    rw [hempty idText hid hall] at hx
    simp only [List.mem_singleton] at hx
    subst hx
    exact Bool.noConfusion hfx
  · intro h
    have := hsent idText hid h
    cases hl : (rejectReview eng predictionId corrGL corrReason o).effects with
    | nil => rw [hl] at this; exact Option.noConfusion this
    | cons x t =>
      rw [hl] at this
      simp only [List.head?_cons, Option.some.injEq] at this
      exact ⟨x, List.mem_cons_self _ _, by rw [this]; rfl⟩
  · intro hall x hx
    cases hid : predictionId.toStr with
    | none =>
      rw [hthrow hid] at hx
      exact absurd hx (List.not_mem_nil _)
    | some idText =>
      rw [hempty idText hid hall] at hx
      simp only [List.mem_singleton] at hx
      subst hx
      rfl

theorem rejectReview_requires_gl_code_witness :
    rejectReview Engine.v8 (.num 7 0) " \t " "wrong account" (.rejected "Failed to fetch") =
        ⟨[.toast "Please enter the corrected GL code" .warning], none⟩ ∧
    (rejectReview Engine.v8 (.num 7 0) "6100 " "" (.response 200 (.ok .null))).effects.head? =
        some (.fetch "/reviews/7/reject"
          ⟨"POST", true, .json (.obj
            [ ("corrected_gl_code", .str "6100"),
              ("reason", .null),
              ("corrected_by", .str "analyst") ])⟩) :=
  ⟨((rejectReview_requires_gl_code Engine.v8 (.num 7 0) " \t " "wrong account"
      (.rejected "Failed to fetch")).1 "7" (by decide!)).1 (by decide),
   ((rejectReview_requires_gl_code Engine.v8 (.num 7 0) "6100 " ""
      (.response 200 (.ok .null))).1 "7" (by decide!)).2.2 ⟨'6', by decide, by decide⟩⟩

/-! ### `apiFetch` and the handlers built on it -/

theorem apiFetch_of_error {eng : Engine} {o : FetchOutcome} {e : JSError}
    (h : apiFetchTry eng o = .error e) (endpoint : String) (options : RequestInit) :
    apiFetch eng endpoint options o = ([.fetch endpoint options, apiErrorToast e], .error e) := by
  unfold apiFetch
  rw [h]

theorem apiFetch_of_ok {eng : Engine} {o : FetchOutcome} {data : JSValue}
    (h : apiFetchTry eng o = .ok data) (endpoint : String) (options : RequestInit) :
    apiFetch eng endpoint options o = ([.fetch endpoint options], .ok data) := by
  unfold apiFetch
  rw [h]

theorem apiFetchTry_rejected (eng : Engine) (message : String) :
    apiFetchTry eng (.rejected message) = .error ⟨message⟩ := rfl

theorem apiFetchTry_not_ok (eng : Engine) {status : Nat} (h : isOk status = false)
    (json : Except String JSValue) :
    ∃ e, apiFetchTry eng (.response status json) = .error e := by
  unfold apiFetchTry
  simp only [h, Bool.false_eq_true, if_false]
  repeat' split
  all_goals exact ⟨_, rfl⟩

theorem apiFetchTry_ok (eng : Engine) {status : Nat} (h : isOk status = true) (data : JSValue) :
    apiFetchTry eng (.response status (.ok data)) = .ok data := by
  unfold apiFetchTry
  simp only [h, if_true]

theorem apiFetchTry_ok_inv {eng : Engine} {o : FetchOutcome} {data : JSValue}
    (h : apiFetchTry eng o = .ok data) :
    ∃ status, o = .response status (.ok data) ∧ isOk status = true := by
  cases o with
  | rejected m => exact Except.noConfusion h
  | response status json =>
    by_cases hok : isOk status = true
    · cases json with
      | ok v =>
        rw [apiFetchTry_ok eng hok] at h
        cases h
        exact ⟨status, rfl, hok⟩
      | error m =>
        unfold apiFetchTry at h
        simp only [hok, if_true] at h
        exact Except.noConfusion h
    · obtain ⟨e, he⟩ := apiFetchTry_not_ok eng (by simpa using hok) json
      rw [he] at h
      exact Except.noConfusion h

theorem uploadFile_of_error {eng : Engine} {o : FetchOutcome} {e : JSError}
    (h : apiFetchTry eng o = .error e) (fileName : String) (prior : JSValue) :
    (uploadFile eng fileName prior o).1 = prior := by
  unfold uploadFile
  rw [apiFetch_of_error h]

/-- C6: `uploadFile` leaves `currentBatchId` at its prior value when the
request is rejected and when the response is not 2xx; after a 2xx response
with a parsed body it holds the `batch_id` of that body; and whenever it ends
with another value than the prior one, a 2xx response with a parsed body
arrived and the new value is the `batch_id` of that body. -/
theorem uploadFile_currentBatchId (eng : Engine) (fileName : String) (prior : JSValue) :
    (∀ message, (uploadFile eng fileName prior (.rejected message)).1 = prior) ∧
    (∀ status json, isOk status = false →
      (uploadFile eng fileName prior (.response status json)).1 = prior) ∧
    (∀ status data batchId, isOk status = true → data.getProp "batch_id" = some batchId →
      (uploadFile eng fileName prior (.response status (.ok data))).1 = batchId) ∧
    (∀ o, (uploadFile eng fileName prior o).1 ≠ prior →
      ∃ status data, o = .response status (.ok data) ∧ isOk status = true ∧
        data.getProp "batch_id" = some (uploadFile eng fileName prior o).1) := by
  refine ⟨?_, ?_, ?_, ?_⟩
  · intro message
    exact uploadFile_of_error (apiFetchTry_rejected eng message) _ _
  · intro status json hok
    obtain ⟨e, he⟩ := apiFetchTry_not_ok eng hok json
    exact uploadFile_of_error he _ _
  · intro status data batchId hok hb
    unfold uploadFile
    rw [apiFetch_of_ok (apiFetchTry_ok eng hok data)]
    simp only [hb]
    split <;> rfl
  · intro o hne
    cases h : apiFetchTry eng o with
    | error e => exact absurd (uploadFile_of_error h fileName prior) hne
    | ok data =>
      obtain ⟨status, ho, hok⟩ := apiFetchTry_ok_inv h
      refine ⟨status, data, ho, hok, ?_⟩
      cases hb : data.getProp "batch_id" with
      | none =>
        exfalso
        apply hne
        unfold uploadFile
        rw [apiFetch_of_ok h]
        simp only [hb]
      | some batchId =>
        unfold uploadFile
        rw [apiFetch_of_ok h]
        simp only [hb]
        split <;> rfl

theorem uploadFile_currentBatchId_witness :
    (uploadFile Engine.v8 "march.csv" (.str "batch-1")
      (.response 500 (.ok (.obj [("detail", .str "Unsupported file")])))).1 = .str "batch-1" ∧
    (uploadFile Engine.v8 "march.csv" (.str "batch-1")
      (.response 200 (.ok (.obj [("batch_id", .str "batch-2")])))).1 = .str "batch-2" :=
  ⟨(uploadFile_currentBatchId Engine.v8 "march.csv" (.str "batch-1")).2.1 500 _ (by decide),
   (uploadFile_currentBatchId Engine.v8 "march.csv" (.str "batch-1")).2.2.1 200 _ _
     (by decide) rfl⟩

/-- C7, against the claim: a passive loader whose request fails does show a
notification, the one `apiFetch` shows before it re-throws. -/
theorem loadPredictions_failure_shows_toast :
    (loadPredictions Engine.v8 (fun _ => none) "" (.rejected "Failed to fetch")).effects =
      [.fetch "/predictions?limit=100" .get, .toast cannotConnectText .error] := by
  rfl

/-- C7, as amended: when its request fails, a passive loader completes
without an error and performs, after the request, exactly one effect: the
error notification of `apiFetch`; it writes nothing to the page.  For
`loadDashboardStats` this holds for the statistics request, and when the
request for the vector count fails after the statistics were shown, the only
further effects are that request and its notification. -/
theorem passive_loaders_on_failure (eng : Engine) (o : FetchOutcome) (e : JSError)
    (h : apiFetchTry eng o = .error e) :
    (∀ row statusFilter, loadPredictions eng row statusFilter o =
        ⟨[.fetch ("/predictions" ++ if statusFilter ≠ "" then
            "?status=" ++ statusFilter ++ "&limit=100" else "?limit=100") .get,
          apiErrorToast e], none⟩) ∧
    (∀ card, loadReviewQueue eng card o =
        ⟨[.fetch "/reviews/queue?limit=50" .get, apiErrorToast e], none⟩) ∧
    (∀ row actionFilter, loadAuditLogs eng row actionFilter o =
        ⟨[.fetch ("/audit/logs" ++ if actionFilter ≠ "" then
            "?action=" ++ actionFilter ++ "&limit=100" else "?limit=100") .get,
          apiErrorToast e], none⟩) ∧
    (∀ row, loadCOA eng row o =
        ⟨[.fetch "/transactions/coa" .get, apiErrorToast e], none⟩) ∧
    (∀ view oMl, loadDashboardStats eng view o oMl =
        ⟨[.fetch "/dashboard/stats" .get, apiErrorToast e], none⟩) ∧
    (∀ view oStats stats page, apiFetchTry eng oStats = .ok stats →
      view.showStats stats = (page, true) →
      loadDashboardStats eng view oStats o =
        ⟨[.fetch "/dashboard/stats" .get] ++ page ++
          [.fetch "/ml/status" .get, apiErrorToast e], none⟩) ∧
    (∃ message, apiErrorToast e = .toast message .error) := by
  refine ⟨?_, ?_, ?_, ?_, ?_, ?_, ?_⟩
  · intro row statusFilter
    unfold loadPredictions
    simp only [apiFetch_of_error h]
  · intro card
    unfold loadReviewQueue
    simp only [apiFetch_of_error h]
  · intro row actionFilter
    unfold loadAuditLogs
    simp only [apiFetch_of_error h]
  · intro row
    unfold loadCOA
    simp only [apiFetch_of_error h]
  · intro view oMl
    unfold loadDashboardStats
    simp only [apiFetch_of_error h]
  · intro view oStats stats page hs hp
    unfold loadDashboardStats
    simp only [apiFetch_of_ok hs, hp, apiFetch_of_error h]
  · unfold apiErrorToast
    split
    · exact ⟨_, rfl⟩
    · exact ⟨_, rfl⟩

theorem passive_loaders_on_failure_witness :
    loadCOA Engine.v8 (fun _ => none) (.response 503 (.error "Unexpected token")) =
      ⟨[.fetch "/transactions/coa" .get, apiErrorToast ⟨"HTTP 503"⟩], none⟩ :=
  (passive_loaders_on_failure Engine.v8 (.response 503 (.error "Unexpected token"))
    ⟨"HTTP 503"⟩ rfl).2.2.2.1 _

/-- C8, against the claim: a 500 response whose `detail` is the text
"Failed to fetch" gets the cannot-connect notification although a response
arrived, and a request rejected with the message "Load failed" (the wording of
Safari) gets that message as its notification although no response arrived. -/
theorem apiFetch_cannot_connect_by_text :
    apiFetch Engine.v8 "/ml/retrain" .post
        (.response 500 (.ok (.obj [("detail", .str "Failed to fetch")]))) =
      ([.fetch "/ml/retrain" .post, .toast cannotConnectText .error],
        .error ⟨"Failed to fetch"⟩) ∧
    apiFetch Engine.v8 "/ml/retrain" .post (.rejected "Load failed") =
      ([.fetch "/ml/retrain" .post, .toast "Load failed" .error], .error ⟨"Load failed"⟩) := by
  constructor <;> rfl

/-- C8, as amended: `apiFetch` shows the cannot-connect notification for a
rejected request whose error message contains "Failed to fetch"; for a
response that is not 2xx and carries a truthy `detail` whose text does not
contain "Failed to fetch", the notification is that text; and for every
failure, the notification has the cannot-connect text exactly when the error
message contains "Failed to fetch" or is the cannot-connect text itself. -/
theorem apiFetch_cannot_connect (eng : Engine) (endpoint : String) (options : RequestInit) :
    (∀ message, includes message "Failed to fetch" = true →
      (apiFetch eng endpoint options (.rejected message)).1 =
        [.fetch endpoint options, .toast cannotConnectText .error]) ∧
    (∀ status body detail text, isOk status = false → body.getProp "detail" = some detail →
      detail.truthy = true → detail.toStr = some text →
      includes text "Failed to fetch" = false →
      (apiFetch eng endpoint options (.response status (.ok body))).1 =
        [.fetch endpoint options, .toast text .error]) ∧
    (∀ o e, apiFetchTry eng o = .error e →
      ((apiFetch eng endpoint options o).1 =
          [.fetch endpoint options, .toast cannotConnectText .error] ↔
        (includes e.message "Failed to fetch" = true ∨ e.message = cannotConnectText))) := by
  refine ⟨?_, ?_, ?_⟩
  · intro message hm
    rw [apiFetch_of_error (apiFetchTry_rejected eng message)]
    simp only [apiErrorToast, hm, if_true]
  · intro status body detail text hok hd ht htext hinc
    have h : apiFetchTry eng (.response status (.ok body)) = .error ⟨text⟩ := by
      unfold apiFetchTry
      simp only [hok, Bool.false_eq_true, if_false, hd, ht, if_true, htext]
    rw [apiFetch_of_error h]
    simp only [apiErrorToast, hinc, Bool.false_eq_true, if_false]
  · intro o e he
    rw [apiFetch_of_error he]
    unfold apiErrorToast
    by_cases hinc : includes e.message "Failed to fetch" = true
    · simp only [hinc, if_true, true_or]
    · have hf : includes e.message "Failed to fetch" = false := by simpa using hinc
      rw [hf]
      simp only [Bool.false_eq_true, if_false, false_or]
      constructor
      · intro h
        simp only [List.cons.injEq, Effect.toast.injEq, and_true, true_and] at h
        exact h
      · intro h
        rw [h]

theorem apiFetch_cannot_connect_witness :
    (apiFetch Engine.v8 "/ml/status" .get (.rejected "TypeError: Failed to fetch")).1 =
        [.fetch "/ml/status" .get, .toast cannotConnectText .error] ∧
    (apiFetch Engine.v8 "/ml/status" .get
        (.response 404 (.ok (.obj [("detail", .str "Not Found")])))).1 =
        [.fetch "/ml/status" .get, .toast "Not Found" .error] :=
  ⟨(apiFetch_cannot_connect Engine.v8 "/ml/status" .get).1 _ (by decide),
   (apiFetch_cannot_connect Engine.v8 "/ml/status" .get).2.1 404 _ (.str "Not Found")
     "Not Found" (by decide) rfl (by decide) rfl (by decide)⟩

/-- C9, against the claim: a 500 response whose body has the `detail` field
set to the empty string fails with the message "HTTP 500", not with that
field; and a 200 response whose body is not JSON does not return: `apiFetch`
shows a notification and throws. -/
theorem apiFetch_falsy_detail_and_bad_json :
    apiFetch Engine.v8 "/transactions" .get
        (.response 500 (.ok (.obj [("detail", .str "")]))) =
      ([.fetch "/transactions" .get, .toast "HTTP 500" .error], .error ⟨"HTTP 500"⟩) ∧
    apiFetch Engine.v8 "/transactions" .get
        (.response 200 (.error "Unexpected end of JSON input")) =
      ([.fetch "/transactions" .get, .toast "Unexpected end of JSON input" .error],
        .error ⟨"Unexpected end of JSON input"⟩) := by
  constructor <;> rfl

theorem getProp_of_json (body : JSValue) (name : String) (h1 : body ≠ .null)
    (h2 : body ≠ .undefined) : ∃ v, body.getProp name = some v := by
  cases body with
  | undefined => exact absurd rfl h2
  | null => exact absurd rfl h1
  | bool b => exact ⟨_, rfl⟩
  | num m e => exact ⟨_, rfl⟩
  | str s => exact ⟨_, rfl⟩
  | arr items => exact ⟨_, rfl⟩
  | obj fields => exact ⟨_, rfl⟩

/-- C9, as amended: for a response that is not 2xx, `apiFetch` throws after the
request and exactly one notification.  When the body is a JSON value other
than `null`, it has a `detail` (possibly `undefined`), and the message of the
error is the text of `detail` when that value is truthy (the message of the
`TypeError` when a truthy value has no text), and "HTTP n" when it is falsy, as
it is when the body is an object without a `detail` member.  When the body is
not JSON the message is "HTTP n" as well.  For a 2xx response whose body is
JSON, `apiFetch` returns the parsed body and shows no notification. -/
theorem apiFetch_response (eng : Engine) (endpoint : String) (options : RequestInit)
    (status : Nat) :
    (isOk status = false → ∀ json, ∃ e message,
      apiFetch eng endpoint options (.response status json) =
        ([.fetch endpoint options, .toast message .error], .error e)) ∧
    (∀ body : JSValue, body ≠ .null → body ≠ .undefined →
      ∃ detail, body.getProp "detail" = some detail) ∧
    (isOk status = false → ∀ body detail text, body.getProp "detail" = some detail →
      detail.truthy = true → detail.toStr = some text →
      (apiFetch eng endpoint options (.response status (.ok body))).2 = .error ⟨text⟩) ∧
    (isOk status = false → ∀ body detail, body.getProp "detail" = some detail →
      detail.truthy = true → detail.toStr = none →
      (apiFetch eng endpoint options (.response status (.ok body))).2 =
        .error ⟨eng.toPrimitiveMessage⟩) ∧
    (isOk status = false → ∀ body detail, body.getProp "detail" = some detail →
      detail.truthy = false →
      (apiFetch eng endpoint options (.response status (.ok body))).2 =
        .error ⟨"HTTP " ++ toString status⟩) ∧
    (isOk status = false → ∀ fields, (∀ v, ("detail", v) ∉ fields) →
      (apiFetch eng endpoint options (.response status (.ok (.obj fields)))).2 =
        .error ⟨"HTTP " ++ toString status⟩) ∧
    (isOk status = false → ∀ syntaxMessage,
      (apiFetch eng endpoint options (.response status (.error syntaxMessage))).2 =
        .error ⟨"HTTP " ++ toString status⟩) ∧
    (isOk status = true → ∀ data,
      apiFetch eng endpoint options (.response status (.ok data)) =
        ([.fetch endpoint options], .ok data)) := by
  have hdetail : isOk status = false → ∀ body detail, body.getProp "detail" = some detail →
      apiFetchTry eng (.response status (.ok body)) =
        (if detail.truthy then
          match detail.toStr with
          | some text => .error ⟨text⟩
          | none => .error ⟨eng.toPrimitiveMessage⟩
        else .error ⟨"HTTP " ++ toString status⟩) := by
    intro hok body detail hd
    unfold apiFetchTry
    simp only [hok, Bool.false_eq_true, if_false, hd]
  refine ⟨?_, fun body h1 h2 => getProp_of_json body "detail" h1 h2, ?_, ?_, ?_, ?_, ?_, ?_⟩
  · intro hok json
    obtain ⟨e, he⟩ := apiFetchTry_not_ok eng hok json
    rw [apiFetch_of_error he]
    unfold apiErrorToast
    split
    · exact ⟨e, _, rfl⟩
    · exact ⟨e, _, rfl⟩
  · intro hok body detail text hd ht htext
    have h := hdetail hok body detail hd
    simp only [ht, if_true, htext] at h
    rw [apiFetch_of_error h]
  · intro hok body detail hd ht htext
    have h := hdetail hok body detail hd
    simp only [ht, if_true, htext] at h
    rw [apiFetch_of_error h]
  · intro hok body detail hd ht
    have h := hdetail hok body detail hd
    simp only [ht, Bool.false_eq_true, if_false] at h
    rw [apiFetch_of_error h]
  · intro hok fields hf
    have hlook : JSValue.field fields "detail" = none := by
      unfold JSValue.field
      rw [List.lookup_eq_none_iff]
      intro p hp
      have hp' : p ∈ fields := List.mem_reverse.1 hp
      rw [bne_iff_ne]
      intro hk
      exact hf p.2 (by rw [hk]; exact hp')
    have hd : (JSValue.obj fields).getProp "detail" = some .undefined := by
      simp only [JSValue.getProp, hlook, Option.getD_none]
    have h := hdetail hok _ _ hd
    simp only [JSValue.truthy, Bool.false_eq_true, if_false] at h
    rw [apiFetch_of_error h]
  · intro hok syntaxMessage
    have hd : (JSValue.obj []).getProp "detail" = some .undefined := rfl
    have h : apiFetchTry eng (.response status (.error syntaxMessage)) =
        .error ⟨"HTTP " ++ toString status⟩ := by
      unfold apiFetchTry
      simp only [hok, Bool.false_eq_true, if_false, hd, JSValue.truthy]
    rw [apiFetch_of_error h]
  · intro hok data
    exact apiFetch_of_ok (apiFetchTry_ok eng hok data) _ _

theorem apiFetch_response_witness :
    (apiFetch Engine.v8 "/reviews/3/approve" .post
        (.response 404 (.ok (.obj [("detail", .str "Prediction not found")])))).2 =
      .error ⟨"Prediction not found"⟩ ∧
    (apiFetch Engine.v8 "/transactions" .get
        (.response 422 (.ok (.obj [("detail", .arr
          [ .obj [("msg", .str "field required")], .obj [("msg", .str "not a number")] ])])))).2 =
      .error ⟨"[object Object],[object Object]"⟩ ∧
    (apiFetch Engine.v8 "/transactions" .get
        (.response 500 (.ok (.obj [("detail", .num 1 21)])))).2 = .error ⟨"1e+21"⟩ ∧
    (apiFetch Engine.v8 "/transactions" .get
        (.response 500 (.ok (.obj [("detail", .obj [("toString", .str "x")])])))).2 =
      .error ⟨"Cannot convert object to primitive value"⟩ ∧
    (apiFetch Engine.v8 "/transactions" .get
        (.response 300 (.ok (.obj [("detail", .num 0 0)])))).2 = .error ⟨"HTTP 300"⟩ ∧
    (apiFetch Engine.v8 "/transactions" .get
        (.response 199 (.ok (.obj [("message", .str "gone")])))).2 = .error ⟨"HTTP 199"⟩ ∧
    (apiFetch Engine.v8 "/reviews/3/approve" .post
        (.response 404 (.error "Unexpected token"))).2 = .error ⟨"HTTP 404"⟩ ∧
    apiFetch Engine.v8 "/reviews/3/approve" .post (.response 200 (.ok (.obj []))) =
      ([.fetch "/reviews/3/approve" .post], .ok (.obj [])) ∧
    apiFetch Engine.v8 "/reviews/3/approve" .post (.response 299 (.ok .null)) =
      ([.fetch "/reviews/3/approve" .post], .ok .null) :=
  ⟨(apiFetch_response Engine.v8 "/reviews/3/approve" .post 404).2.2.1 (by decide) _
      (.str "Prediction not found") "Prediction not found" rfl (by decide) rfl,
   (apiFetch_response Engine.v8 "/transactions" .get 422).2.2.1 (by decide) _
      (.arr [ .obj [("msg", .str "field required")], .obj [("msg", .str "not a number")] ])
      "[object Object],[object Object]" rfl (by decide) (by decide),
   (apiFetch_response Engine.v8 "/transactions" .get 500).2.2.1 (by decide) _
      (.num 1 21) "1e+21" rfl (by decide!) (by decide!),
   (apiFetch_response Engine.v8 "/transactions" .get 500).2.2.2.1 (by decide) _
      (.obj [("toString", .str "x")]) rfl (by decide) (by decide),
   (apiFetch_response Engine.v8 "/transactions" .get 300).2.2.2.2.1 (by decide) _
      (.num 0 0) rfl (by decide!),
   (apiFetch_response Engine.v8 "/transactions" .get 199).2.2.2.2.2.1 (by decide) _
      (fun v h => by simp at h),
   (apiFetch_response Engine.v8 "/reviews/3/approve" .post 404).2.2.2.2.2.2.1 (by decide) _,
   (apiFetch_response Engine.v8 "/reviews/3/approve" .post 200).2.2.2.2.2.2.2 (by decide) _,
   (apiFetch_response Engine.v8 "/reviews/3/approve" .post 299).2.2.2.2.2.2.2 (by decide) _⟩

/-- C10: after a 2xx response whose body `data` allows property reads and
whose four tally values have texts, `classifyAll` sets the tally to the
template filled with the texts of `data.total_classified`,
`data.auto_posted`, `data.pending_review` and `data.manual_required`, each as
it arrived and nothing else computed from them; the request it has sent
carries `batch_id: currentBatchId` when `currentBatchId` is truthy and the
empty object otherwise, as for the initial `null`. -/
theorem classifyAll_tally (eng : Engine) (currentBatchId : JSValue) :
    (∀ status data total auto pending manual totalText autoText pendingText manualText,
      isOk status = true →
      data.getProp "total_classified" = some total → data.getProp "auto_posted" = some auto →
      data.getProp "pending_review" = some pending →
      data.getProp "manual_required" = some manual →
      total.toStr = some totalText → auto.toStr = some autoText →
      pending.toStr = some pendingText → manual.toStr = some manualText →
      classifyAll eng currentBatchId (.response status (.ok data)) =
        ⟨[ .toast "Classifying transactions..." .info,
           .fetch "/predictions/classify"
             ⟨"POST", true, .json
               (if currentBatchId.truthy then .obj [("batch_id", currentBatchId)]
                else .obj [])⟩,
           .removeClass "classifyResult" "hidden",
           .setHtml "classifyDetails"
             ("\n            <div class=\"flex justify-between\"><span class=\"text-gray-400\">Total Classified</span><span class=\"font-semibold text-white\">" ++
              totalText ++
              "</span></div>\n            <div class=\"flex justify-between\"><span class=\"text-emerald-400\">✓ Auto-Posted</span><span class=\"font-semibold text-emerald-300\">" ++
              autoText ++
              "</span></div>\n            <div class=\"flex justify-between\"><span class=\"text-amber-400\">⏳ Pending Review</span><span class=\"font-semibold text-amber-300\">" ++
              pendingText ++
              "</span></div>\n            <div class=\"flex justify-between\"><span class=\"text-red-400\">✋ Manual Required</span><span class=\"font-semibold text-red-300\">" ++
              manualText ++
              "</span></div>\n        "),
           .toast ("Classified " ++ totalText ++ " transactions") .success,
           .spawn "loadDashboardStats" ], none⟩) ∧
    (∀ o, (classifyAll eng currentBatchId o).effects.take 2 =
      [ .toast "Classifying transactions..." .info,
        .fetch "/predictions/classify"
          ⟨"POST", true, .json
            (if currentBatchId.truthy then .obj [("batch_id", currentBatchId)]
             else .obj [])⟩ ]) ∧
    (currentBatchId.truthy = true →
      classifyBody currentBatchId = .obj [("batch_id", currentBatchId)]) ∧
    (currentBatchId.truthy = false → classifyBody currentBatchId = .obj []) ∧
    classifyBody .null = .obj [] := by
  refine ⟨?_, ?_, ?_, ?_, rfl⟩
  · intro status data total auto pending manual totalText autoText pendingText manualText
      hok h1 h2 h3 h4 t1 t2 t3 t4
    unfold classifyAll
    rw [apiFetch_of_ok (apiFetchTry_ok eng hok data)]
    simp only [h1, h2, h3, h4, t1, t2, t3, t4]
    rfl
  · intro o
    unfold classifyAll apiFetch
    cases apiFetchTry eng o with
    | error e => rfl
    | ok data =>
      simp only
      split
      · split <;> rfl
      · rfl
  · intro h
    simp only [classifyBody, h, if_true]
  · intro h
    simp only [classifyBody, h, Bool.false_eq_true, if_false]

theorem classifyAll_tally_witness :
    classifyAll Engine.v8 (.str "b-17") (.response 200 (.ok (.obj
        [ ("total_classified", .num 10 0), ("auto_posted", .num 1 0),
          ("pending_review", .num 1 0), ("manual_required", .num 1 0) ]))) =
      ⟨[ .toast "Classifying transactions..." .info,
         .fetch "/predictions/classify"
           ⟨"POST", true, .json (.obj [("batch_id", .str "b-17")])⟩,
         .removeClass "classifyResult" "hidden",
         .setHtml "classifyDetails"
           ("\n            <div class=\"flex justify-between\"><span class=\"text-gray-400\">Total Classified</span><span class=\"font-semibold text-white\">" ++
           "10" ++
           "</span></div>\n            <div class=\"flex justify-between\"><span class=\"text-emerald-400\">✓ Auto-Posted</span><span class=\"font-semibold text-emerald-300\">" ++
           "1" ++
           "</span></div>\n            <div class=\"flex justify-between\"><span class=\"text-amber-400\">⏳ Pending Review</span><span class=\"font-semibold text-amber-300\">" ++
           "1" ++
           "</span></div>\n            <div class=\"flex justify-between\"><span class=\"text-red-400\">✋ Manual Required</span><span class=\"font-semibold text-red-300\">" ++
           "1" ++
           "</span></div>\n        "),
         .toast "Classified 10 transactions" .success,
         .spawn "loadDashboardStats" ], none⟩ ∧
    classifyAll Engine.v8 .null (.response 201 (.ok (.obj
        [ ("total_classified", .num 3 0), ("total_classified", .num 1 21),
          ("auto_posted", .num 25 (-1)), ("pending_review", .str "many") ]))) =
      ⟨[ .toast "Classifying transactions..." .info,
         .fetch "/predictions/classify" ⟨"POST", true, .json (.obj [])⟩,
         .removeClass "classifyResult" "hidden",
         .setHtml "classifyDetails"
           ("\n            <div class=\"flex justify-between\"><span class=\"text-gray-400\">Total Classified</span><span class=\"font-semibold text-white\">" ++
           "1e+21" ++
           "</span></div>\n            <div class=\"flex justify-between\"><span class=\"text-emerald-400\">✓ Auto-Posted</span><span class=\"font-semibold text-emerald-300\">" ++
           "2.5" ++
           "</span></div>\n            <div class=\"flex justify-between\"><span class=\"text-amber-400\">⏳ Pending Review</span><span class=\"font-semibold text-amber-300\">" ++
           "many" ++
           "</span></div>\n            <div class=\"flex justify-between\"><span class=\"text-red-400\">✋ Manual Required</span><span class=\"font-semibold text-red-300\">" ++
           "undefined" ++
           "</span></div>\n        "),
         .toast "Classified 1e+21 transactions" .success,
         .spawn "loadDashboardStats" ], none⟩ :=
  ⟨(classifyAll_tally Engine.v8 (.str "b-17")).1 200 _ (.num 10 0) (.num 1 0) (.num 1 0)
    (.num 1 0) "10" "1" "1" "1" (by decide) rfl rfl rfl rfl (by decide!) (by decide!)
    (by decide!) (by decide!),
   (classifyAll_tally Engine.v8 .null).1 201 _ (.num 1 21) (.num 25 (-1)) (.str "many")
    .undefined "1e+21" "2.5" "many" "undefined" (by decide) rfl rfl rfl rfl (by decide!)
    (by decide!) rfl rfl⟩
/-! ### Quick entry -/

theorem requests_append (xs ys : List Effect) :
    requests (xs ++ ys) = requests xs ++ requests ys := by
  induction xs with
  | nil => rfl
  | cons x t ih => cases x <;> simp [requests, ih]

theorem requests_apiErrorToast (e : JSError) (rest : List Effect) :
    requests (apiErrorToast e :: rest) = requests rest := by
  unfold apiErrorToast
  split <;> rfl

theorem requests_switchTab_results : requests (switchTab "results") = [] := by
  rfl

/-- C11: for a description that is not blank, `handleQuickEntry` issues the
request that creates the transaction first.  When that request fails, the run
holds no other request and ends with the failure notification; when it
returns a transaction, the only other request of the run is the classify
request for exactly the `id` of that transaction, issued after it; and when
the classify request fails, the run ends with the failure notification and
the `finally` block, with no further request and no call of another
function. -/
theorem handleQuickEntry_requests (eng : Engine) (quickDesc : String)
    (oCreate oClassify : FetchOutcome)
    (hdesc : ∃ c ∈ quickDesc.toList, isJSWhiteSpace c = false) :
    ((requests (handleQuickEntry eng quickDesc oCreate oClassify).effects).head? =
      some ("/transactions", ⟨"POST", true, .transaction (jsTrim quickDesc) (extractAmount (jsTrim quickDesc))⟩)) ∧
    (∀ e, apiFetchTry eng oCreate = .error e →
      handleQuickEntry eng quickDesc oCreate oClassify =
        ⟨[ .preventDefault, .setDisabled "quickDesc" true, .toast "Classifying..." .info,
           .fetch "/transactions" (⟨"POST", true, .transaction (jsTrim quickDesc) (extractAmount (jsTrim quickDesc))⟩),
           apiErrorToast e,
           .toast ("Failed to classify: " ++ e.message) .error,
           .setDisabled "quickDesc" false, .focus "quickDesc" ], none⟩ ∧
      requests (handleQuickEntry eng quickDesc oCreate oClassify).effects =
        [("/transactions", ⟨"POST", true, .transaction (jsTrim quickDesc) (extractAmount (jsTrim quickDesc))⟩)]) ∧
    (∀ txn id, apiFetchTry eng oCreate = .ok txn → txn.getProp "id" = some id →
      requests (handleQuickEntry eng quickDesc oCreate oClassify).effects =
        [ ("/transactions", ⟨"POST", true, .transaction (jsTrim quickDesc) (extractAmount (jsTrim quickDesc))⟩),
          ("/predictions/classify", ⟨"POST", true, .json (.obj [("transaction_ids", .arr [id])])⟩) ]) ∧
    (∀ txn id e, apiFetchTry eng oCreate = .ok txn → txn.getProp "id" = some id →
      apiFetchTry eng oClassify = .error e →
      handleQuickEntry eng quickDesc oCreate oClassify =
        ⟨[ .preventDefault, .setDisabled "quickDesc" true, .toast "Classifying..." .info,
           .fetch "/transactions" (⟨"POST", true, .transaction (jsTrim quickDesc) (extractAmount (jsTrim quickDesc))⟩),
           .fetch "/predictions/classify" (⟨"POST", true, .json (.obj [("transaction_ids", .arr [id])])⟩),
           apiErrorToast e,
           .toast ("Failed to classify: " ++ e.message) .error,
           .setDisabled "quickDesc" false, .focus "quickDesc" ], none⟩) := by
  have hne : ¬ jsTrim quickDesc = "" := by
    obtain ⟨c, hc, hws⟩ := hdesc
    intro h
    have := (jsTrim_eq_empty_iff quickDesc).1 h c hc
    rw [hws] at this
    exact Bool.noConfusion this
  have hfail : ∀ e, apiFetchTry eng oCreate = .error e →
      handleQuickEntry eng quickDesc oCreate oClassify =
        ⟨[ .preventDefault, .setDisabled "quickDesc" true, .toast "Classifying..." .info,
           .fetch "/transactions" (⟨"POST", true, .transaction (jsTrim quickDesc) (extractAmount (jsTrim quickDesc))⟩),
           apiErrorToast e,
           .toast ("Failed to classify: " ++ e.message) .error,
           .setDisabled "quickDesc" false, .focus "quickDesc" ], none⟩ := by
    intro e he
    unfold handleQuickEntry
    simp only [hne, if_false, apiFetch_of_error he]
    rfl
  have hclassifyFail : ∀ txn id e, apiFetchTry eng oCreate = .ok txn →
      txn.getProp "id" = some id → apiFetchTry eng oClassify = .error e →
      handleQuickEntry eng quickDesc oCreate oClassify =
        ⟨[ .preventDefault, .setDisabled "quickDesc" true, .toast "Classifying..." .info,
           .fetch "/transactions" (⟨"POST", true, .transaction (jsTrim quickDesc) (extractAmount (jsTrim quickDesc))⟩),
           .fetch "/predictions/classify" (⟨"POST", true, .json (.obj [("transaction_ids", .arr [id])])⟩),
           apiErrorToast e,
           .toast ("Failed to classify: " ++ e.message) .error,
           .setDisabled "quickDesc" false, .focus "quickDesc" ], none⟩ := by
    intro txn id e htxn hid he
    unfold handleQuickEntry
    simp only [hne, if_false, apiFetch_of_ok htxn, hid, apiFetch_of_error he]
    rfl
  have hboth : ∀ txn id, apiFetchTry eng oCreate = .ok txn → txn.getProp "id" = some id →
      requests (handleQuickEntry eng quickDesc oCreate oClassify).effects =
        [ ("/transactions", ⟨"POST", true, .transaction (jsTrim quickDesc) (extractAmount (jsTrim quickDesc))⟩),
          ("/predictions/classify", ⟨"POST", true, .json (.obj [("transaction_ids", .arr [id])])⟩) ] := by
    intro txn id htxn hid
    cases hc : apiFetchTry eng oClassify with
    | error e =>
      rw [hclassifyFail txn id e htxn hid hc]
      simp only [requests, requests_apiErrorToast]
    | ok data =>
      unfold handleQuickEntry
      simp only [hne, if_false, apiFetch_of_ok htxn, hid, apiFetch_of_ok hc]
      simp only [requests_append, requests_switchTab_results]
      rfl
  refine ⟨?_, fun e he => ⟨hfail e he, ?_⟩, hboth, hclassifyFail⟩
  · cases h : apiFetchTry eng oCreate with
    | error e =>
      rw [hfail e h]
      simp only [requests, List.head?_cons]
    | ok txn =>
      cases hid : txn.getProp "id" with
      | some id => rw [hboth txn id h hid]; rfl
      | none =>
        unfold handleQuickEntry
        simp only [hne, if_false, apiFetch_of_ok h, hid]
        rfl
  · rw [hfail e he]
    simp only [requests, requests_apiErrorToast]

theorem handleQuickEntry_requests_witness :
    requests (handleQuickEntry Engine.v8 "lunch 15.50"
        (.response 201 (.ok (.obj [("id", .num 42 0)])))
        (.response 500 (.error "Unexpected token"))).effects =
      [ ("/transactions", ⟨"POST", true, .transaction "lunch 15.50" (.finite 15.50)⟩),
        ("/predictions/classify",
          ⟨"POST", true, .json (.obj [("transaction_ids", .arr [.num 42 0])])⟩) ] ∧
    requests (handleQuickEntry Engine.v8 "lunch 15.50" (.rejected "Failed to fetch")
        (.response 200 (.ok (.obj [])))).effects =
      [("/transactions", ⟨"POST", true, .transaction "lunch 15.50" (.finite 15.50)⟩)] :=
  ⟨by
    have h := (handleQuickEntry_requests Engine.v8 "lunch 15.50"
      (.response 201 (.ok (.obj [("id", .num 42 0)])))
      (.response 500 (.error "Unexpected token")) ⟨'l', by decide, by decide⟩).2.2.1
      _ (.num 42 0) rfl rfl
    rw [show jsTrim "lunch 15.50" = "lunch 15.50" by decide, extractAmount_lunch] at h
    exact h,
   by
    have h := ((handleQuickEntry_requests Engine.v8 "lunch 15.50" (.rejected "Failed to fetch")
      (.response 200 (.ok (.obj []))) ⟨'l', by decide, by decide⟩).2.1
      ⟨"Failed to fetch"⟩ rfl).2
    rw [show jsTrim "lunch 15.50" = "lunch 15.50" by decide, extractAmount_lunch] at h
    exact h⟩

/-! ### Dashboard statistics -/

theorem percentOf_of_pos {count total : Int} (h : 0 < total) :
    percentOf count total = some ((count : ℚ) / (total : ℚ) * 100) := by
  unfold percentOf
  rw [if_neg (by omega)]

theorem classificationBreakdown_skipped {stats : DashboardStats}
    (h : stats.total_predictions ≤ 0) : classificationBreakdown stats = none := by
  unfold classificationBreakdown
  rw [if_neg (by omega)]

theorem renderStats_of_skipped (fmt : Formatter) {stats : DashboardStats}
    (h : stats.total_predictions ≤ 0) :
    ∀ x ∈ renderStats fmt stats, x.target ≠ some "classificationBreakdown" := by
  intro x hx
  unfold renderStats at hx
  rw [classificationBreakdown_skipped h] at hx
  simp only [List.append_nil, List.mem_append, List.mem_cons, List.not_mem_nil, or_false] at hx
  rcases hx with hx | hx
  · rcases hx with rfl | rfl | rfl | rfl | rfl | rfl | rfl | rfl <;>
      (simp only [Effect.target]; decide)
  · split at hx
    · simp only [List.mem_cons, List.not_mem_nil, or_false] at hx
      rcases hx with rfl | rfl <;> (simp only [Effect.target]; decide)
    · simp only [List.mem_cons, List.not_mem_nil, or_false] at hx
      subst hx
      simp only [Effect.target]
      decide

/-- C12: for every `DashboardStats` value, the five percentages of the
breakdown are computed only inside the block guarded by
`total_predictions > 0`.  When the total is positive the block builds five
items, each with the number `count / total_predictions * 100`, and shows
them; no item of any run holds the result of a division by zero.  When the
total is not positive the block is skipped and no effect of the statistics
block writes to `classificationBreakdown`.  In a run of `loadDashboardStats`
on a response that holds the value, the effects up to the second request are
the first request and those of the statistics block. -/
theorem classificationBreakdown_guard (fmt : Formatter) (stats : DashboardStats) :
    (0 < stats.total_predictions →
      ∃ items, classificationBreakdown stats = some items ∧ items.length = 5 ∧
        items.map (fun i => i.count) =
          [ stats.auto_posted_count, stats.pending_review_count,
            stats.manual_required_count, stats.approved_count, stats.rejected_count ] ∧
        (∀ i ∈ items, i.pct = some ((i.count : ℚ) / (stats.total_predictions : ℚ) * 100)) ∧
        .setHtml "classificationBreakdown" (breakdownHtml fmt items) ∈ renderStats fmt stats) ∧
    (∀ items, classificationBreakdown stats = some items →
      0 < stats.total_predictions ∧ ∀ i ∈ items, i.pct ≠ none) ∧
    (stats.total_predictions ≤ 0 →
      classificationBreakdown stats = none ∧
      ∀ x ∈ renderStats fmt stats, x.target ≠ some "classificationBreakdown") ∧
    (∀ eng otherStats showVectors status v oMl, isOk status = true →
      DashboardStats.ofJSValue v = some stats →
      ∃ rest, (loadDashboardStats eng (dashboardView fmt otherStats showVectors)
          (.response status (.ok v)) oMl).effects =
        .fetch "/dashboard/stats" .get :: renderStats fmt stats ++
          .fetch "/ml/status" .get :: rest) := by
  have hpos : 0 < stats.total_predictions →
      ∃ items, classificationBreakdown stats = some items ∧ items.length = 5 ∧
        items.map (fun i => i.count) =
          [ stats.auto_posted_count, stats.pending_review_count,
            stats.manual_required_count, stats.approved_count, stats.rejected_count ] ∧
        (∀ i ∈ items, i.pct = some ((i.count : ℚ) / (stats.total_predictions : ℚ) * 100)) ∧
        .setHtml "classificationBreakdown" (breakdownHtml fmt items) ∈
          renderStats fmt stats := by
    intro h
    have hb : classificationBreakdown stats = some
        [ ⟨"Auto-Posted", stats.auto_posted_count, "bg-emerald-400",
            percentOf stats.auto_posted_count stats.total_predictions⟩,
          ⟨"Pending Review", stats.pending_review_count, "bg-amber-400",
            percentOf stats.pending_review_count stats.total_predictions⟩,
          ⟨"Manual Required", stats.manual_required_count, "bg-red-400",
            percentOf stats.manual_required_count stats.total_predictions⟩,
          ⟨"Approved", stats.approved_count, "bg-blue-400",
            percentOf stats.approved_count stats.total_predictions⟩,
          ⟨"Rejected", stats.rejected_count, "bg-purple-400",
            percentOf stats.rejected_count stats.total_predictions⟩ ] := by
      unfold classificationBreakdown
      rw [if_pos h]
    refine ⟨_, hb, rfl, rfl, ?_, ?_⟩
    · intro i hi
      simp only [List.mem_cons, List.not_mem_nil, or_false] at hi
      rcases hi with rfl | rfl | rfl | rfl | rfl <;> exact percentOf_of_pos h
    · unfold renderStats
      rw [hb]
      exact List.mem_append_right _ (List.mem_singleton.2 rfl)
  refine ⟨hpos, ?_, ?_, ?_⟩
  · intro items hitems
    have h : 0 < stats.total_predictions := by
      by_contra hle
      rw [classificationBreakdown_skipped (by omega)] at hitems
      exact Option.noConfusion hitems
    refine ⟨h, ?_⟩
    obtain ⟨items', h1, -, -, h2, -⟩ := hpos h
    rw [h1] at hitems
    cases hitems
    intro i hi hnone
    rw [h2 i hi] at hnone
    exact Option.noConfusion hnone
  · intro h
    exact ⟨classificationBreakdown_skipped h, renderStats_of_skipped fmt h⟩
  · intro eng otherStats showVectors status v oMl hok hv
    unfold loadDashboardStats
    rw [apiFetch_of_ok (apiFetchTry_ok eng hok v)]
    simp only [dashboardView, hv, apiFetch]
    cases apiFetchTry eng oMl with
    | error e => exact ⟨_, rfl⟩
    | ok ml =>
      exact ⟨_, by simp only [List.singleton_append, List.cons_append, List.append_assoc]; rfl⟩

theorem classificationBreakdown_guard_witness :
    classificationBreakdown ⟨12, 0, 0, 0, 0, 0, 0, 0, 0, 0⟩ = none ∧
    ∃ items, classificationBreakdown ⟨12, 5, 2, 1, 1, 1, 10, 6, 87, 10⟩ = some items ∧
      items.length = 5 ∧
      items.map (fun i => i.count) = [5, 2, 1, 1, 1] ∧
      (∀ i ∈ items, i.pct = some ((i.count : ℚ) / ((10 : Int) : ℚ) * 100)) ∧
      .setHtml "classificationBreakdown"
          (breakdownHtml ⟨toString, fun _ => "", fun _ => ""⟩ items) ∈
        renderStats ⟨toString, fun _ => "", fun _ => ""⟩
          ⟨12, 5, 2, 1, 1, 1, 10, 6, 87, 10⟩ :=
  ⟨((classificationBreakdown_guard ⟨toString, fun _ => "", fun _ => ""⟩
      ⟨12, 0, 0, 0, 0, 0, 0, 0, 0, 0⟩).2.2.1 (by decide)).1,
   (classificationBreakdown_guard ⟨toString, fun _ => "", fun _ => ""⟩
      ⟨12, 5, 2, 1, 1, 1, 10, 6, 87, 10⟩).1 (by decide)⟩

/-! ### The sign of the extracted amount -/

theorem numberValue_nonneg (n d : Nat) :
    numberValue n d = .infinity ∨ ∃ q, numberValue n d = .finite q ∧ 0 ≤ q := by
  unfold numberValue
  cases toDouble n d with
  | none => exact Or.inl rfl
  | some p => exact Or.inr ⟨_, rfl, by positivity⟩

theorem parseFloat_nonneg (t : List Char) :
    parseFloat t = .infinity ∨ ∃ q, parseFloat t = .finite q ∧ 0 ≤ q := by
  unfold parseFloat
  split
  · exact numberValue_nonneg _ _
  · exact numberValue_nonneg _ _

/-- C13: the amount `handleQuickEntry` extracts is never negative (it is a
finite number that is at least 0, or `Infinity` for a token beyond the range
of doubles): the text of a match that is parsed holds only digits and at most
a point, never a minus sign, so that `"-50 lunch"` matches from its second
character on and gives 50. -/
theorem extractAmount_nonneg (desc : String) :
    (extractAmount desc = .infinity ∨ ∃ q, extractAmount desc = .finite q ∧ 0 ≤ q) ∧
    (∀ b e, amountMatch desc.toList = some (b, e) →
      ∀ c ∈ slice desc.toList b e, (c.isDigit = true ∨ c = '.') ∧ c ≠ '-') ∧
    amountMatch "-50 lunch".toList = some (1, 3) ∧
    extractAmount "-50 lunch" = .finite 50 := by
  refine ⟨?_, ?_, by decide, ?_⟩
  · unfold extractAmount
    split
    · exact parseFloat_nonneg _
    · exact Or.inr ⟨0, rfl, le_refl _⟩
  · intro b e hm c hc
    obtain ⟨i, -, hi, -⟩ := findSome?_range _ _ _ hm
    have hmem : (b, e) ∈ amountPatternAt desc.toList i := List.mem_of_mem_head? hi
    obtain ⟨k, h1, h2, hk⟩ := mem_slice hc
    have hchar : c.isDigit = true ∨ c = '.' := by
      rcases captured_chars hmem k h1 h2 with hd | hd
      · left
        rw [digitAt, hk] at hd
        exact hd
      · right
        rw [hk] at hd
        exact (Option.some.inj hd)
    refine ⟨hchar, ?_⟩
    rintro rfl
    rcases hchar with h | h
    · exact absurd h (by decide)
    · exact absurd h (by decide)
  · have h : amountMatch "-50 lunch".toList = some (1, 3) := by decide
    have h2 : slice "-50 lunch".toList 1 3 = ['5', '0'] := by decide
    have h3 : parseFloat ['5', '0'] = numberValue 50 1 := rfl
    have h4 : toDouble 50 1 = some (7036874417766400, -47) := by decide!
    simp only [extractAmount, h, h2, h3, numberValue_of_double h4]
    congr 1
    norm_num

theorem extractAmount_nonneg_witness :
    '5' ∈ slice "-50 lunch".toList 1 3 ∧ ('5'.isDigit = true ∨ '5' = '.') ∧ '5' ≠ '-' :=
  ⟨by decide, (extractAmount_nonneg "-50 lunch").2.1 1 3 (by decide) '5' (by decide)⟩

end AutoLedger
